import Mathlib

/-!
OTTO sound-file codec, `src/util/soundfile.cpp`.

A shallow embedding of the WAVE container codec (`Header`, `WAVE_fmt`,
`WAVE_data`, `SoundFile`) together with the byte-file layer it is built on,
followed by theorems about the embedded functions.

Conventions of the embedding

* A `bytes<N>` field is represented by its unsigned little-endian value, a
  natural number; storing a value into an `N`-byte field keeps it modulo
  `2 ^ (8 * N)`.
* `Position` is the signed integer type of the source, embedded as `Int`;
  the division of `seek`, `position` and `length` is the truncating division
  of C++, `Int.tdiv`.
* A `throw` is a `Res.throw` carrying the error kind and the state of the
  `SoundFile` at the moment of the throw.
-/

namespace Otto

/-! ## Byte fields -/

/-- Little-endian bytes of the `n`-byte field holding `v` (the value is kept
modulo `256 ^ n`). -/
def leBytes : Nat → Nat → List Nat
  | 0, _ => []
  | n + 1, v => v % 256 :: leBytes n (v / 256)

/-- Unsigned value of a little-endian byte sequence (`bytes<N>::as_u`). -/
def leValue : List Nat → Nat
  | [] => 0
  | b :: bs => b % 256 + 256 * leValue bs

/-- Tag `"RIFF"` as the value of a four-byte field. -/
def RIFF : Nat := leValue [82, 73, 70, 70]

/-- Tag `"WAVE"`. -/
def WAVE : Nat := leValue [87, 65, 86, 69]

/-- Tag `"FORM"`. -/
def FORM : Nat := leValue [70, 79, 82, 77]

/-- Tag `"AIFF"`. -/
def AIFF : Nat := leValue [65, 73, 70, 70]

/-- Tag `"fmt "`. -/
def FMT : Nat := leValue [102, 109, 116, 32]

/-- Tag `"data"`. -/
def DATA : Nat := leValue [100, 97, 116, 97]

/-! ## State -/

/-- Modelled from the spec: the enumeration `SoundFile::Info::Type` (declared in
the header `util/soundfile.hpp`). The source names `WAVE` and `AIFF`; the spec
lists the container kind as `Wave | Aiff | Unknown`. -/
inductive InfoType
  | WAVE
  | AIFF
  | Unknown
  deriving DecidableEq, Repr

/-- The record `SoundFile::info`. -/
structure Info where
  type : InfoType
  channels : Int
  samplerate : Int
  deriving DecidableEq, Repr

/-- A `SoundFile` together with the `ByteFile` it derives from: the contents
and cursor of the backing stream, and the members `info`, `audioOffset`
and `sample_size`. -/
structure SoundFile where
  data : List Nat
  pos : Int
  info : Info
  audioOffset : Int
  sample_size : Int
  deriving DecidableEq, Repr

/-- Error kinds. `UnsupportedEncoding` is the throw of
`"Unsupported audio format. Currently only float is supported"`,
`UnsupportedBitDepth` the throw of
`"Unsupported sample size. Currently only 32bit float is supported"`,
`UnsupportedContainerKind` the throws of
`"Unsupported file type. Currently only wav is supported"` and
`"Unsupported type. Currently only wav is supported"`,
`UnrecognizedFileType` is `Error::UnrecognizedFileType`, and
`MalformedContainer` is the error of the bounded chunk scan. -/
inductive Error
  | UnrecognizedFileType
  | UnsupportedEncoding
  | UnsupportedBitDepth
  | UnsupportedContainerKind
  | MalformedContainer
  deriving DecidableEq, Repr

/-- Outcome of an operation that may throw: either a value and the state
reached, or the error thrown and the state at the throw. -/
inductive Res (α : Type)
  | ok (a : α) (sf : SoundFile)
  | throw (e : Error) (sf : SoundFile)
  deriving DecidableEq, Repr

/-- The error of an outcome, if it is a throw. -/
def Res.err {α : Type} : Res α → Option Error
  | .ok _ _ => none
  | .throw e _ => some e

/-- The state an outcome ends in. -/
def Res.state {α : Type} : Res α → SoundFile
  | .ok _ sf => sf
  | .throw _ sf => sf

/-- The value of an outcome, if it is not a throw. -/
def Res.val {α : Type} : Res α → Option α
  | .ok a _ => some a
  | .throw _ _ => none

/-! ## Byte-oriented file access -/

namespace ByteFile

/-- Modelled from the spec: `ByteFile::seek` (defined outside
`soundfile.cpp`). The cursor is set to the absolute byte position asked for,
which is the position returned. -/
def seek (sf : SoundFile) (p : Int) : SoundFile × Int :=
  ({ sf with pos := p }, p)

/-- Modelled from the spec: `ByteFile::position`, the absolute cursor. -/
def position (sf : SoundFile) : Int := sf.pos

/-- Modelled from the spec: `ByteFile::size`, the byte length of the stream. -/
def size (sf : SoundFile) : Int := sf.data.length

/-- Bytes `bs` stored at index `p`, overwriting what is there and growing the
stream as needed (a gap is filled with zero bytes). -/
def writeAt (d : List Nat) (p : Nat) (bs : List Nat) : List Nat :=
  d.take p ++ List.replicate (p - d.length) 0 ++ bs ++ d.drop (p + bs.length)

/-- Modelled from the spec: `ByteFile::read_bytes` on an `n`-byte field. The
field receives the `n` bytes at the cursor (bytes past the end of the stream
read as zero) and the cursor advances by `n`. -/
def read_bytes (n : Nat) (sf : SoundFile) : SoundFile × Nat :=
  ({ sf with pos := sf.pos + n }, leValue ((sf.data.drop sf.pos.toNat).take n))

/-- Modelled from the spec: `ByteFile::write_bytes` on an `n`-byte field
holding `v`. The `n` bytes are stored at the cursor, which advances by `n`. -/
def write_bytes (n : Nat) (v : Nat) (sf : SoundFile) : SoundFile :=
  { sf with data := writeAt sf.data sf.pos.toNat (leBytes n v), pos := sf.pos + n }

/-- The raw bytes `bs` stored at the cursor, which advances by their number. -/
def write_raw (bs : List Nat) (sf : SoundFile) : SoundFile :=
  { sf with data := writeAt sf.data sf.pos.toNat bs, pos := sf.pos + bs.length }

end ByteFile

/-! ## Chunks -/

/-- The six fields of `WAVE_fmt`. -/
structure FmtFields where
  audioFormat : Nat
  numChannels : Nat
  sampleRate : Nat
  byteRate : Nat
  blockAlign : Nat
  bitsPerSample : Nat
  deriving DecidableEq, Repr

/-- Fields of a `WAVE_fmt` built by one of its constructors:
`audioFormat = 3`, the others value-initialised. -/
def FmtFields.fresh : FmtFields := ⟨3, 0, 0, 0, 0, 0⟩

/-- The 16 bytes of the six fields of a format chunk, in stream order:
`audioFormat`, `numChannels`, `sampleRate`, `byteRate`, `blockAlign`,
`bitsPerSample`. -/
def fmtPayload (f : FmtFields) : List Nat :=
  leBytes 2 f.audioFormat ++ (leBytes 2 f.numChannels ++ (leBytes 4 f.sampleRate ++
    (leBytes 4 f.byteRate ++ (leBytes 2 f.blockAlign ++ leBytes 2 f.bitsPerSample))))

/-- The six values fit the widths of their fields. -/
def FmtFields.InRange (f : FmtFields) : Prop :=
  f.audioFormat < 256 ^ 2 ∧ f.numChannels < 256 ^ 2 ∧ f.sampleRate < 256 ^ 4 ∧
    f.byteRate < 256 ^ 4 ∧ f.blockAlign < 256 ^ 2 ∧ f.bitsPerSample < 256 ^ 2

instance (f : FmtFields) : Decidable f.InRange := by
  unfold FmtFields.InRange
  infer_instance

/-- The dynamic type of a chunk: the base `ByteFile::Chunk`, `WAVE_fmt` with its
fields, `WAVE_data`, or a chunk type of the embedder, represented by the
bytes its `write_fields` emits. -/
inductive Variant
  | generic
  | fmt (f : FmtFields)
  | data
  | custom (payload : List Nat)
  deriving DecidableEq, Repr

/-- A `ByteFile::Chunk`: `id`, `size`, `offset` and its dynamic type. -/
structure Chunk where
  id : Nat
  size : Nat
  offset : Int
  variant : Variant
  deriving DecidableEq, Repr

/-- The `Header` chunk: a chunk with a `format` tag and its child chunks. -/
structure Header where
  id : Nat
  size : Nat
  offset : Int
  format : Nat
  chunks : List Chunk
  deriving DecidableEq, Repr

/-- `WAVE_fmt::read_fields`: reads the six fields, throws on an encoding
other than 3, publishes `channels` and `samplerate`, throws on a bit depth
other than 32. -/
def WAVE_fmt.read_fields (sf : SoundFile) : Res FmtFields :=
  let (sf1, audioFormat) := ByteFile.read_bytes 2 sf
  let (sf2, numChannels) := ByteFile.read_bytes 2 sf1
  let (sf3, sampleRate) := ByteFile.read_bytes 4 sf2
  let (sf4, byteRate) := ByteFile.read_bytes 4 sf3
  let (sf5, blockAlign) := ByteFile.read_bytes 2 sf4
  let (sf6, bitsPerSample) := ByteFile.read_bytes 2 sf5
  let f : FmtFields :=
    ⟨audioFormat, numChannels, sampleRate, byteRate, blockAlign, bitsPerSample⟩
  if audioFormat ≠ 3 then
    .throw .UnsupportedEncoding sf6
  else
    let sf7 : SoundFile :=
      { sf6 with info := { sf6.info with channels := numChannels, samplerate := sampleRate } }
    if bitsPerSample ≠ 32 then
      .throw .UnsupportedBitDepth sf7
    else
      .ok f sf7

/-- Value an `Int` leaves in an `n`-byte unsigned field. -/
def toField (n : Nat) (v : Int) : Nat := (v % (256 ^ n : Nat)).toNat

/-- The field values `WAVE_fmt::write_fields` computes from the `SoundFile`.
The product for `byteRate` is taken in 32-bit unsigned arithmetic. -/
def WAVE_fmt.computed (sf : SoundFile) : FmtFields :=
  let audioFormat := 3
  let numChannels := toField 2 sf.info.channels
  let sampleRate := toField 4 sf.info.samplerate
  let bitsPerSample := toField 2 (sf.sample_size * 8)
  let byteRate := (sampleRate * numChannels * bitsPerSample) % 2 ^ 32 / 8
  let blockAlign := (numChannels * bitsPerSample / 8) % 2 ^ 16
  ⟨audioFormat, numChannels, sampleRate, byteRate, blockAlign, bitsPerSample⟩

/-- `WAVE_fmt::write_fields`: recomputes the six fields, whatever the chunk
held, and writes them. -/
def WAVE_fmt.write_fields (_old : FmtFields) (sf : SoundFile) : SoundFile × FmtFields :=
  let f := WAVE_fmt.computed sf
  let sf1 := ByteFile.write_bytes 2 f.audioFormat sf
  let sf2 := ByteFile.write_bytes 2 f.numChannels sf1
  let sf3 := ByteFile.write_bytes 4 f.sampleRate sf2
  let sf4 := ByteFile.write_bytes 4 f.byteRate sf3
  let sf5 := ByteFile.write_bytes 2 f.blockAlign sf4
  let sf6 := ByteFile.write_bytes 2 f.bitsPerSample sf5
  (sf6, f)

/-- `WAVE_data::read_fields`: publishes `audioOffset = offset + 8`. -/
def WAVE_data.read_fields (offset : Int) (sf : SoundFile) : SoundFile :=
  { sf with audioOffset := offset + 8 }

/-- `WAVE_data::write_fields`: publishes `audioOffset = offset + 8`. -/
def WAVE_data.write_fields (offset : Int) (sf : SoundFile) : SoundFile :=
  { sf with audioOffset := offset + 8 }

/-- Modelled from the spec: `ByteFile::Chunk::read` (defined outside
`soundfile.cpp`): records the cursor as `offset`, reads `id` and `size`, then
runs the `read_fields` of the chunk's dynamic type. The base chunk and the
embedder's chunk types read no fields here. -/
def Chunk.read (c : Chunk) (sf : SoundFile) : Res Chunk :=
  let offset := ByteFile.position sf
  let (sf1, id) := ByteFile.read_bytes 4 sf
  let (sf2, size) := ByteFile.read_bytes 4 sf1
  match c.variant with
  | .generic => .ok ⟨id, size, offset, .generic⟩ sf2
  | .custom p => .ok ⟨id, size, offset, .custom p⟩ sf2
  | .data => .ok ⟨id, size, offset, .data⟩ (WAVE_data.read_fields offset sf2)
  | .fmt _ =>
    match WAVE_fmt.read_fields sf2 with
    | .ok f sf3 => .ok ⟨id, size, offset, .fmt f⟩ sf3
    | .throw e sf3 => .throw e sf3

/-- Modelled from the spec: `ByteFile::Chunk::write` (defined outside
`soundfile.cpp`): records the cursor as `offset`, writes `id` and the `size` the
chunk holds, then runs the `write_fields` of the chunk's dynamic type. -/
def Chunk.write (c : Chunk) (sf : SoundFile) : SoundFile × Chunk :=
  let offset := ByteFile.position sf
  let sf1 := ByteFile.write_bytes 4 c.id sf
  let sf2 := ByteFile.write_bytes 4 c.size sf1
  match c.variant with
  | .generic => (sf2, ⟨c.id, c.size, offset, .generic⟩)
  | .custom p => (ByteFile.write_raw p sf2, ⟨c.id, c.size, offset, .custom p⟩)
  | .data => (WAVE_data.write_fields offset sf2, ⟨c.id, c.size, offset, .data⟩)
  | .fmt f =>
    let (sf3, g) := WAVE_fmt.write_fields f sf2
    (sf3, ⟨c.id, c.size, offset, .fmt g⟩)

/-! ## Container header -/

/-- Modelled from the spec: the loop of `ByteFile::for_chunks_in_range`
(defined outside `soundfile.cpp`). While the position is before `stop`, a
generic chunk descriptor is read at the position; a child whose declared
extent `offset + 8 + size` crosses `stop` is a malformed-container error;
otherwise the child is recorded and the position advances to the end of its
extent. The first argument bounds the number of iterations; the position `p`
is the cursor of the stream. -/
def scanChunks : Nat → SoundFile → Int → Int → Res (List Chunk)
  | 0, sf, _, _ => .ok [] sf
  | fuel + 1, sf, p, stop =>
    if p < stop then
      match Chunk.read ⟨0, 0, 0, .generic⟩ (ByteFile.seek sf p).1 with
      | .throw e sf1 => .throw e sf1
      | .ok c sf1 =>
        if c.offset + 8 + c.size > stop then
          .throw .MalformedContainer sf1
        else
          let next := c.offset + 8 + c.size
          match scanChunks fuel (ByteFile.seek sf1 next).1 next stop with
          | .throw e sf2 => .throw e sf2
          | .ok cs sf2 => .ok (c :: cs) sf2
    else
      .ok [] sf

/-- Modelled from the spec: `ByteFile::for_chunks_in_range start stop`, with
the callback of `Header::read_fields`, which records a copy of each chunk.
Every iteration advances by at least 8 bytes, so `stop - start` iterations
are enough. -/
def ByteFile.for_chunks_in_range (sf : SoundFile) (start stop : Int) : Res (List Chunk) :=
  scanChunks (stop - start).toNat sf start stop

/-- The scan of `for_chunks_in_range` without the bound check: the children
as they declare themselves, whether or not they cross `stop`. -/
def declaredChunks : Nat → SoundFile → Int → Int → List Chunk
  | 0, _, _, _ => []
  | fuel + 1, sf, p, stop =>
    if p < stop then
      match Chunk.read ⟨0, 0, 0, .generic⟩ (ByteFile.seek sf p).1 with
      | .throw _ _ => []
      | .ok c sf1 =>
        let next := c.offset + 8 + c.size
        c :: declaredChunks fuel (ByteFile.seek sf1 next).1 next stop
    else
      []

/-- `Header::read_fields`: reads `format`, then records the chunks found in
the range `[offset + 12, offset + 8 + size)`. -/
def Header.read_fields (h : Header) (sf : SoundFile) : Res Header :=
  let (sf1, format) := ByteFile.read_bytes 4 sf
  match ByteFile.for_chunks_in_range sf1 (h.offset + 12) (h.offset + 8 + h.size) with
  | .throw e sf2 => .throw e sf2
  | .ok cs sf2 => .ok { h with format := format, chunks := h.chunks ++ cs } sf2

/-- `Chunk::read` on a `Header` (see `Chunk.read`). -/
def Header.read (h : Header) (sf : SoundFile) : Res Header :=
  let offset := ByteFile.position sf
  let (sf1, id) := ByteFile.read_bytes 4 sf
  let (sf2, size) := ByteFile.read_bytes 4 sf1
  Header.read_fields { h with id := id, size := size, offset := offset } sf2

/-- The loop of `Header::write_fields`: each child is written in sequence
order. -/
def writeChunks : List Chunk → SoundFile → SoundFile × List Chunk
  | [], sf => (sf, [])
  | c :: cs, sf =>
    let (sf1, c1) := Chunk.write c sf
    let (sf2, cs1) := writeChunks cs sf1
    (sf2, c1 :: cs1)

/-- `Header::write_fields`: writes `format`, then every child. -/
def Header.write_fields (h : Header) (sf : SoundFile) : SoundFile × Header :=
  let sf1 := ByteFile.write_bytes 4 h.format sf
  let (sf2, cs) := writeChunks h.chunks sf1
  (sf2, { h with chunks := cs })

/-- `Chunk::write` on a `Header` (see `Chunk.write`). -/
def Header.write (h : Header) (sf : SoundFile) : SoundFile × Header :=
  let offset := ByteFile.position sf
  let sf1 := ByteFile.write_bytes 4 h.id sf
  let sf2 := ByteFile.write_bytes 4 h.size sf1
  Header.write_fields { h with offset := offset } sf2

/-- A default-constructed `Header`. -/
def Header.fresh : Header := ⟨0, 0, 0, 0, []⟩

/-! ## SoundFile -/

/-- The virtual members of `SoundFile` that the embedder supplies (defined
outside `soundfile.cpp`): the chunks `add_custom_chunks` appends on writing,
the replacement `replace_custom_chunk` makes on reading, and `create_file`. -/
structure Hooks where
  custom_chunks : List Chunk
  replace_custom_chunk : Chunk → Chunk
  create_file : SoundFile → SoundFile

namespace SoundFile

/-- `SoundFile::seek`. -/
def seek (sf : SoundFile) (p : Int) : SoundFile × Int :=
  let (sf1, b) := ByteFile.seek sf (sf.audioOffset + p * sf.sample_size)
  (sf1, Int.tdiv (b - sf.audioOffset) sf.sample_size)

/-- `SoundFile::position`. -/
def position (sf : SoundFile) : SoundFile × Int :=
  let r := Int.tdiv (ByteFile.position sf - sf.audioOffset) sf.sample_size
  if r < 0 then
    ((seek sf 0).1, 0)
  else
    (sf, r)

/-- `SoundFile::length`. -/
def length (sf : SoundFile) : Int :=
  Int.tdiv (ByteFile.size sf - sf.audioOffset) sf.sample_size

/-- One iteration of the loop of `read_file`: the chunk is promoted by its
tag, handed to `replace_custom_chunk`, and read again from its beginning as
its new type. -/
def promote (hk : Hooks) (chunk : Chunk) (sf : SoundFile) : Res Chunk :=
  let c1 : Chunk := if chunk.id = FMT then { chunk with variant := .fmt FmtFields.fresh } else chunk
  let c2 : Chunk := if c1.id = DATA then { c1 with variant := .data } else c1
  let c3 := hk.replace_custom_chunk c2
  Chunk.read c3 (ByteFile.seek sf c3.offset).1

/-- The loop of `read_file` over `header.chunks`. -/
def promoteAll (hk : Hooks) : List Chunk → SoundFile → Res (List Chunk)
  | [], sf => .ok [] sf
  | c :: cs, sf =>
    match promote hk c sf with
    | .throw e sf1 => .throw e sf1
    | .ok c1 sf1 =>
      match promoteAll hk cs sf1 with
      | .throw e sf2 => .throw e sf2
      | .ok cs1 sf2 => .ok (c1 :: cs1) sf2

/-- The dispatch of `read_file` on the tag and format of the header. -/
def dispatch (hk : Hooks) (header : Header) (sf : SoundFile) : Res Unit :=
  if header.id = RIFF ∧ header.format = WAVE then
    .ok () { sf with info := { sf.info with type := .WAVE } }
  else if header.id = FORM ∧ header.format = AIFF then
    .ok () { sf with info := { sf.info with type := .AIFF } }
  else if header.id = 0 then
    .ok () (hk.create_file sf)
  else
    .throw .UnrecognizedFileType sf

/-- The `switch (info.type)` of `read_file` and the final `seek(0)`; the
result is the header with its children as the loop leaves them. -/
def readBody (hk : Hooks) (header : Header) (sf : SoundFile) : Res Header :=
  match sf.info.type with
  | .WAVE =>
    match promoteAll hk header.chunks sf with
    | .throw e sf1 => .throw e sf1
    | .ok cs sf1 => .ok { header with chunks := cs } (seek sf1 0).1
  | .AIFF => .throw .UnsupportedContainerKind sf
  | .Unknown => .ok header (seek sf 0).1

/-- `SoundFile::read_file`. -/
def read_file (hk : Hooks) (sf : SoundFile) : Res Header :=
  match Header.read Header.fresh (ByteFile.seek sf 0).1 with
  | .throw e sf1 => .throw e sf1
  | .ok header sf1 =>
    match dispatch hk header sf1 with
    | .throw e sf2 => .throw e sf2
    | .ok _ sf2 => readBody hk header sf2

/-- The children `write_file` gives the header: a `WAVE_fmt`, the chunks of
`add_custom_chunks`, and a `WAVE_data` whose `size` is set to
`ByteFile::size() - audioOffset`. -/
def writeChildren (hk : Hooks) (sf : SoundFile) : List Chunk :=
  [⟨FMT, 0, 0, .fmt FmtFields.fresh⟩] ++ hk.custom_chunks ++
    [⟨DATA, toField 4 (ByteFile.size sf - sf.audioOffset), 0, .data⟩]

/-- `SoundFile::write_file`; the result is the header as written. -/
def write_file (hk : Hooks) (sf : SoundFile) : Res Header :=
  let sf0 := (ByteFile.seek sf 0).1
  match sf0.info.type with
  | .WAVE =>
    let header : Header :=
      { Header.fresh with id := RIFF, format := WAVE, chunks := writeChildren hk sf0 }
    let (sf1, h1) := Header.write header sf0
    .ok h1 sf1
  | .AIFF => .throw .UnsupportedContainerKind sf0
  | .Unknown => .ok Header.fresh sf0

end SoundFile

/-! ## The written image -/

/-- The bytes `Chunk::write` emits for a chunk: `id`, `size`, then the bytes of
its `write_fields`, where `f` are the fields `WAVE_fmt::write_fields` computes. -/
def Chunk.emitted (f : FmtFields) (c : Chunk) : List Nat :=
  leBytes 4 c.id ++ (leBytes 4 c.size ++
    match c.variant with
    | .generic => []
    | .custom p => p
    | .data => []
    | .fmt _ => fmtPayload f)

/-- The chunk as `Chunk::write` leaves it when it is written at byte `p`. -/
def Chunk.placed (f : FmtFields) (p : Int) (c : Chunk) : Chunk :=
  { c with
    offset := p
    variant := match c.variant with
      | .fmt _ => .fmt f
      | v => v }

/-- The children as written one after the other from byte `p` on. -/
def layout (f : FmtFields) : Int → List Chunk → List Chunk
  | _, [] => []
  | p, c :: cs => c.placed f p :: layout f (p + (c.emitted f).length) cs

/-- The payload offset after the children are written from byte `p` on,
`a` being the payload offset before: every `WAVE_data` among them publishes
its offset plus 8. -/
def publishedOffset (f : FmtFields) : Int → Int → List Chunk → Int
  | a, _, [] => a
  | a, p, c :: cs =>
    publishedOffset f (if c.variant = .data then p + 8 else a) (p + (c.emitted f).length) cs

/-- The bytes `write_file` emits for the `WAVE` kind: the header's tag, size and
format, then its children in sequence order. -/
def waveImage (hk : Hooks) (sf : SoundFile) : List Nat :=
  leBytes 4 RIFF ++ (leBytes 4 0 ++ (leBytes 4 WAVE ++
    (SoundFile.writeChildren hk sf).flatMap (Chunk.emitted (WAVE_fmt.computed sf))))

/-- The values `WAVE_fmt::write_fields` stores fit the fields that receive
them: channel count, sample rate, bit depth, byte rate and block align. -/
def SoundFile.FitsFields (sf : SoundFile) : Prop :=
  (0 ≤ sf.info.channels ∧ sf.info.channels < 2 ^ 16) ∧
    (0 ≤ sf.info.samplerate ∧ sf.info.samplerate < 2 ^ 32) ∧
    (0 ≤ sf.sample_size ∧ sf.sample_size * 8 < 2 ^ 16) ∧
    sf.info.samplerate * sf.info.channels * (sf.sample_size * 8) < 2 ^ 32 ∧
    sf.info.channels * (sf.sample_size * 8) / 8 < 2 ^ 16

instance (sf : SoundFile) : Decidable sf.FitsFields := by
  unfold SoundFile.FitsFields
  infer_instance

/-! ## A concrete file -/

/-- The hooks of a `SoundFile` without chunk types of its own; `create_file`
leaves the state as it is. -/
def noHooks : Hooks := ⟨[], id, id⟩

/-- Hooks supplying one custom chunk, tagged `LIST`, of four payload bytes. -/
def listHooks : Hooks := ⟨[⟨leValue [76, 73, 83, 84], 4, 0, .custom [1, 2, 3, 4]⟩], id, id⟩

/-- A stereo 44100 Hz `SoundFile` with four-byte samples over a stream of 44
header bytes and 32 payload bytes (eight floats, four frames), the payload
starting at byte 44. -/
def demo : SoundFile :=
  ⟨List.replicate 44 0 ++ List.replicate 32 7, 0, ⟨.WAVE, 2, 44100⟩, 44, 4⟩

/-- The file `demo` with 12 more header bytes, its payload starting at byte
56: the layout `write_file` gives with the custom chunk of `listHooks`. -/
def listDemo : SoundFile :=
  ⟨List.replicate 56 0 ++ List.replicate 32 7, 0, ⟨.WAVE, 2, 44100⟩, 56, 4⟩

/-- A stream holding exactly the payload of a format chunk with encoding 3,
two channels, 44100 Hz, byte rate 352800, block align 8 and 32 bits, the
cursor at its first byte. -/
def fmtDemo : SoundFile :=
  ⟨fmtPayload ⟨3, 2, 44100, 352800, 8, 32⟩, 0, ⟨.WAVE, 1, 0⟩, 0, 4⟩

/-- The bytes of a WAVE file whose sizes are all in place: a header of size
44, a format chunk of size 16 (encoding 3, two channels, 44100 Hz, 32 bits) at
byte 12 and a data chunk of size 8 at byte 36. -/
def wavBytes : List Nat :=
  [82, 73, 70, 70] ++ leBytes 4 44 ++ [87, 65, 86, 69] ++
    ([102, 109, 116, 32] ++ leBytes 4 16 ++ fmtPayload ⟨3, 2, 44100, 352800, 8, 32⟩) ++
    ([100, 97, 116, 97] ++ leBytes 4 8 ++ [1, 2, 3, 4, 5, 6, 7, 8])

/-- A freshly constructed mono `SoundFile` over the stream `wavBytes`. -/
def wavDemo : SoundFile := ⟨wavBytes, 0, ⟨.WAVE, 1, 0⟩, 0, 4⟩

/-- The stream `wavBytes` with the size of its header lowered from 44 to 30,
so that the data chunk at byte 36, which ends at byte 52, crosses the end of
the header at byte 38. -/
def shortHeaderDemo : SoundFile :=
  ⟨[82, 73, 70, 70] ++ leBytes 4 30 ++ wavBytes.drop 8, 0, ⟨.WAVE, 1, 0⟩, 0, 4⟩

/-- Children tile the byte range from `p` to `stop`: the first starts at `p`,
each next one where its predecessor's extent ends, and the last extent ends
at `stop` (an empty sequence when `p` is not before `stop`). -/
def Tiles : Int → List Chunk → Int → Prop
  | p, [], stop => stop ≤ p
  | p, c :: cs, stop => p < stop ∧ c.offset = p ∧ Tiles (c.offset + 8 + c.size) cs stop

/-- An error that reading a format chunk can raise. -/
def Error.IsFormat (e : Option Error) : Prop :=
  e = none ∨ e = some Error.UnsupportedEncoding ∨ e = some Error.UnsupportedBitDepth

/-! ## Reading: descriptors and frames -/

/-- The generic descriptor the stream `d` declares at byte `o`: the tag in
the four bytes at `o`, the size in the four bytes at `o + 4`. -/
def genericAt (d : List Nat) (o : Int) : Chunk :=
  ⟨leValue ((d.drop o.toNat).take 4), leValue ((d.drop (o + (4 : Nat)).toNat).take 4), o,
    .generic⟩

/-- Two states that differ at most in the cursor of the stream. -/
def SameButCursor (s t : SoundFile) : Prop :=
  t.data = s.data ∧ t.info = s.info ∧ t.audioOffset = s.audioOffset ∧
    t.sample_size = s.sample_size

/-- The payload offset after the children `cs` have been read in order, `a`
being the payload offset before: every `WAVE_data` among them publishes its
offset plus 8. -/
def payloadOffsetOf : Int → List Chunk → Int
  | a, [] => a
  | a, c :: cs => payloadOffsetOf (if c.variant = .data then c.offset + 8 else a) cs

/-- Modelled from the spec: the contract of `replace_custom_chunk` (defined
outside `soundfile.cpp`), which is consulted for the children the codec does
not recognize and may promote one to a type of the embedder: the replacement
keeps the offset of the chunk it replaces, and a chunk the codec has
promoted to `WAVE_fmt` or `WAVE_data` keeps its type. -/
def Hooks.Adopting (hk : Hooks) : Prop :=
  ∀ c : Chunk, (hk.replace_custom_chunk c).offset = c.offset ∧
    (c.variant ≠ .generic → (hk.replace_custom_chunk c).variant = c.variant)

/-- What the loop of `read_file` makes of the generic child `c`: `d` has the
tag, size and offset of `c`; it is a `WAVE_fmt` when the tag is `fmt `, a
`WAVE_data` when the tag is `data`, and it is generic when the tag is
neither and `replace_custom_chunk` returns the chunk it was given. -/
def Promoted (hk : Hooks) (c d : Chunk) : Prop :=
  d.id = c.id ∧ d.size = c.size ∧ d.offset = c.offset ∧
    (c.id = FMT → ∃ f, d.variant = .fmt f) ∧
    (c.id = DATA → d.variant = .data) ∧
    (c.id ≠ FMT → c.id ≠ DATA → hk.replace_custom_chunk c = c → d.variant = .generic)

/-- The stream `wavBytes` with the bit depth of its format chunk lowered from
32 to 16. -/
def wav16Demo : SoundFile :=
  ⟨wavBytes.take 34 ++ [16, 0] ++ wavBytes.drop 36, 0, ⟨.WAVE, 1, 0⟩, 0, 4⟩

/-- The stream of `fmtDemo` with the bit depth 16. -/
def fmt16Demo : SoundFile :=
  ⟨fmtPayload ⟨3, 2, 44100, 352800, 8, 16⟩, 0, ⟨.WAVE, 1, 0⟩, 0, 4⟩

/-- The stream `wavBytes` with a chunk tagged `LIST`, of size 4, between the
format chunk and the data chunk, which then stands at byte 48; the header
has size 56. -/
def wavListDemo : SoundFile :=
  ⟨[82, 73, 70, 70] ++ leBytes 4 56 ++ [87, 65, 86, 69] ++
    ([102, 109, 116, 32] ++ leBytes 4 16 ++ fmtPayload ⟨3, 2, 44100, 352800, 8, 32⟩) ++
    ([76, 73, 83, 84] ++ leBytes 4 4 ++ [1, 2, 3, 4]) ++
    ([100, 97, 116, 97] ++ leBytes 4 8 ++ [1, 2, 3, 4, 5, 6, 7, 8]),
    0, ⟨.WAVE, 1, 0⟩, 0, 4⟩

/-- The header of `wavListDemo` as the generic scan finds it. -/
def wavListScanned : Header :=
  ⟨RIFF, 56, 0, WAVE,
    [⟨FMT, 16, 12, .generic⟩, ⟨leValue [76, 73, 83, 84], 4, 36, .generic⟩,
      ⟨DATA, 8, 48, .generic⟩]⟩

/-- The header of `wavListDemo` as `read_file` leaves it. -/
def wavListRead : Header :=
  ⟨RIFF, 56, 0, WAVE,
    [⟨FMT, 16, 12, .fmt ⟨3, 2, 44100, 352800, 8, 32⟩⟩,
      ⟨leValue [76, 73, 83, 84], 4, 36, .generic⟩, ⟨DATA, 8, 48, .data⟩]⟩

/-- A `WAVE` stream whose data chunk (byte 12, size 8) comes before a format
chunk (byte 28) with the encoding 1. -/
def dataFirstDemo : SoundFile :=
  ⟨[82, 73, 70, 70] ++ leBytes 4 44 ++ [87, 65, 86, 69] ++
    ([100, 97, 116, 97] ++ leBytes 4 8 ++ [1, 2, 3, 4, 5, 6, 7, 8]) ++
    ([102, 109, 116, 32] ++ leBytes 4 16 ++ fmtPayload ⟨1, 2, 44100, 352800, 8, 32⟩),
    0, ⟨.WAVE, 1, 0⟩, 0, 4⟩

/-- The file `demo` with 65536 channels, one more than the two-byte field
`numChannels` can hold. -/
def wideDemo : SoundFile := { demo with info := ⟨.WAVE, 65536, 44100⟩ }

/-- The file `demo` with 4000 channels: the byte rate `44100 * 4000 * 32 / 8 =
705600000` fits the four-byte field `byteRate`, the product `44100 * 4000 * 32`
does not fit 32 bits. -/
def manyDemo : SoundFile := { demo with info := ⟨.WAVE, 4000, 44100⟩ }

theorem leBytes_length (n v : Nat) : (leBytes n v).length = n := by
  induction n generalizing v with
  | zero => rfl
  | succ k ih => simp [leBytes, ih]

theorem leValue_leBytes (n v : Nat) : leValue (leBytes n v) = v % 256 ^ n := by
  induction n generalizing v with
  | zero => simp [leBytes, leValue, Nat.mod_one]
  | succ k ih =>
    simp only [leBytes, leValue, ih, Nat.mod_mod]
    rw [pow_succ, Nat.mul_comm (256 ^ k) 256, Nat.mod_mul]

theorem leValue_leBytes_of_lt (n v : Nat) (h : v < 256 ^ n) : leValue (leBytes n v) = v := by
  rw [leValue_leBytes, Nat.mod_eq_of_lt h]

/-- Reading a field whose bytes `bs` sit at the cursor. -/
theorem read_bytes_at (sf : SoundFile) (pre bs post : List Nat) (n : Nat)
    (hpos : sf.pos = pre.length) (hdata : sf.data = pre ++ bs ++ post) (hn : bs.length = n) :
    ByteFile.read_bytes n sf = ({ sf with pos := sf.pos + n }, leValue bs) := by
  simp only [ByteFile.read_bytes, hpos, hdata, Int.toNat_ofNat, List.append_assoc,
    List.drop_left, ← hn, List.take_left]

theorem peek_at (d pre bs post : List Nat) (p : Int) (n : Nat)
    (hd : d = pre ++ (bs ++ post)) (hp : p = (pre.length : Int)) (hn : bs.length = n) :
    (d.drop p.toNat).take n = bs := by
  subst hd hp hn
  simp

theorem WAVE_fmt_read_fields_at (sf : SoundFile) (pre post : List Nat) (f : FmtFields)
    (hf : f.InRange) (hpos : sf.pos = pre.length) (hdata : sf.data = pre ++ fmtPayload f ++ post) :
    WAVE_fmt.read_fields sf =
      if f.audioFormat ≠ 3 then
        .throw .UnsupportedEncoding { sf with pos := sf.pos + 16 }
      else if f.bitsPerSample ≠ 32 then
        .throw .UnsupportedBitDepth { sf with pos := sf.pos + 16, info :=
          { sf.info with channels := f.numChannels, samplerate := f.sampleRate } }
      else
        .ok f { sf with pos := sf.pos + 16, info :=
          { sf.info with channels := f.numChannels, samplerate := f.sampleRate } } := by
  obtain ⟨h1, h2, h3, h4, h5, h6⟩ := hf
  obtain ⟨a, c, r, b, k, s⟩ := f
  simp only at h1 h2 h3 h4 h5 h6
  simp only [fmtPayload] at hdata
  have v1 := peek_at sf.data pre (leBytes 2 a) _ sf.pos 2
    (by rw [hdata]; simp only [List.append_assoc]; rfl) hpos (leBytes_length _ _)
  have v2 := peek_at sf.data (pre ++ leBytes 2 a) (leBytes 2 c) _ (sf.pos + (2 : Nat)) 2
    (by rw [hdata]; simp only [List.append_assoc]; rfl)
    (by simp [hpos, leBytes_length]; try omega) (leBytes_length _ _)
  have v3 := peek_at sf.data (pre ++ leBytes 2 a ++ leBytes 2 c) (leBytes 4 r) _
    (sf.pos + (2 : Nat) + (2 : Nat)) 4
    (by rw [hdata]; simp only [List.append_assoc]; rfl)
    (by simp [hpos, leBytes_length]; try omega) (leBytes_length _ _)
  have v4 := peek_at sf.data (pre ++ leBytes 2 a ++ leBytes 2 c ++ leBytes 4 r) (leBytes 4 b) _
    (sf.pos + (2 : Nat) + (2 : Nat) + (4 : Nat)) 4
    (by rw [hdata]; simp only [List.append_assoc]; rfl)
    (by simp [hpos, leBytes_length]; try omega) (leBytes_length _ _)
  have v5 := peek_at sf.data (pre ++ leBytes 2 a ++ leBytes 2 c ++ leBytes 4 r ++ leBytes 4 b)
    (leBytes 2 k) _ (sf.pos + (2 : Nat) + (2 : Nat) + (4 : Nat) + (4 : Nat)) 2
    (by rw [hdata]; simp only [List.append_assoc]; rfl)
    (by simp [hpos, leBytes_length]; try omega) (leBytes_length _ _)
  have v6 := peek_at sf.data
    (pre ++ leBytes 2 a ++ leBytes 2 c ++ leBytes 4 r ++ leBytes 4 b ++ leBytes 2 k)
    (leBytes 2 s) post (sf.pos + (2 : Nat) + (2 : Nat) + (4 : Nat) + (4 : Nat) + (2 : Nat)) 2
    (by rw [hdata]; simp only [List.append_assoc])
    (by simp [hpos, leBytes_length]; try omega) (leBytes_length _ _)
  have p16 : sf.pos + (2 : Nat) + (2 : Nat) + (4 : Nat) + (4 : Nat) + (2 : Nat) + (2 : Nat)
      = sf.pos + 16 := by push_cast; ring
  simp only [WAVE_fmt.read_fields, ByteFile.read_bytes, v1, v2, v3, v4, v5, v6, p16,
    leValue_leBytes_of_lt _ _ h1, leValue_leBytes_of_lt _ _ h2, leValue_leBytes_of_lt _ _ h3,
    leValue_leBytes_of_lt _ _ h4, leValue_leBytes_of_lt _ _ h5, leValue_leBytes_of_lt _ _ h6]

/-- C1. `WAVE_fmt::read_fields` on a stream holding the payload `f` at the
cursor: the error is the unsupported-encoding error when `audioFormat ≠ 3`, the
unsupported-bit-depth error when `audioFormat = 3` and `bitsPerSample ≠ 32`, and
there is none otherwise; so an error is raised exactly when `audioFormat ≠ 3` or
`bitsPerSample ≠ 32`, and a payload with `audioFormat = 3` and
`bitsPerSample = 32` is accepted with its fields as read, whatever the other
four fields hold. -/
theorem WAVE_fmt_read_fields_validation (sf : SoundFile) (pre post : List Nat) (f : FmtFields)
    (hf : f.InRange) (hpos : sf.pos = pre.length) (hdata : sf.data = pre ++ fmtPayload f ++ post) :
    (WAVE_fmt.read_fields sf).err =
        (if f.audioFormat ≠ 3 then some Error.UnsupportedEncoding
         else if f.bitsPerSample ≠ 32 then some Error.UnsupportedBitDepth
         else none) ∧
      ((WAVE_fmt.read_fields sf).err ≠ none ↔ (f.audioFormat ≠ 3 ∨ f.bitsPerSample ≠ 32)) ∧
      (f.audioFormat = 3 → f.bitsPerSample = 32 → (WAVE_fmt.read_fields sf).val = some f) := by
  rw [WAVE_fmt_read_fields_at sf pre post f hf hpos hdata]
  by_cases ha : f.audioFormat = 3 <;> by_cases hb : f.bitsPerSample = 32 <;>
    simp [ha, hb, Res.err, Res.val]

/-- Witness of C1: the stream `fmtDemo` holds an in-range payload at its
cursor, and the theorem applies to it. -/
theorem WAVE_fmt_read_fields_validation_witness :
    (FmtFields.InRange ⟨3, 2, 44100, 352800, 8, 32⟩ ∧
      fmtDemo.pos = (([] : List Nat).length : Int) ∧
      fmtDemo.data = [] ++ fmtPayload ⟨3, 2, 44100, 352800, 8, 32⟩ ++ []) ∧
    ((WAVE_fmt.read_fields fmtDemo).err =
        (if (3 : Nat) ≠ 3 then some Error.UnsupportedEncoding
         else if (32 : Nat) ≠ 32 then some Error.UnsupportedBitDepth
         else none) ∧
      ((WAVE_fmt.read_fields fmtDemo).err ≠ none ↔ ((3 : Nat) ≠ 3 ∨ (32 : Nat) ≠ 32)) ∧
      ((3 : Nat) = 3 → (32 : Nat) = 32 →
        (WAVE_fmt.read_fields fmtDemo).val = some ⟨3, 2, 44100, 352800, 8, 32⟩)) :=
  ⟨⟨by decide, rfl, by decide⟩,
    WAVE_fmt_read_fields_validation fmtDemo [] [] ⟨3, 2, 44100, 352800, 8, 32⟩
      (by decide) rfl (by decide)⟩

/-! ## Sample addressing -/

theorem tdiv_nonpos_of_neg (x s : Int) (hx : x < 0) (hs : 0 < s) : Int.tdiv x s ≤ 0 := by
  have h := Int.tdiv_nonneg (a := -x) (b := s) (by omega) (by omega)
  rw [Int.neg_tdiv] at h
  omega

theorem tdiv_neg_of_le_neg (x s : Int) (hx : x + s ≤ 0) (hs : 0 < s) : Int.tdiv x s < 0 := by
  have h1 : (1 : Int) ≤ Int.tdiv (-x) s := by
    rw [Int.tdiv_eq_ediv (by omega) (by omega)]
    exact (Int.le_ediv_iff_mul_le hs).2 (by omega)
  rw [Int.neg_tdiv] at h1
  omega

theorem tdiv_mul_le_of_nonneg (x s : Int) (hx : 0 ≤ x) (hs : 0 < s) : Int.tdiv x s * s ≤ x := by
  rw [Int.tdiv_eq_ediv hx (by omega)]
  exact Int.ediv_mul_le x (by omega)

/-- C3. Sample addressing: in a state with a positive sample size and a
non-negative payload offset, for every sample index `i` with
`0 ≤ i < length()`, `seek(i)` returns `i` and leaves the byte stream at
`audioOffset + i * sample_size`, a byte position inside the stream, and a
following `position()` returns `i` without moving the stream. -/
theorem SoundFile_seek_position (sf : SoundFile) (i : Int)
    (hs : 0 < sf.sample_size) (ho : 0 ≤ sf.audioOffset)
    (hi : 0 ≤ i) (hlen : i < SoundFile.length sf) :
    (SoundFile.seek sf i).2 = i ∧
      (SoundFile.seek sf i).1.pos = sf.audioOffset + i * sf.sample_size ∧
      (0 ≤ (SoundFile.seek sf i).1.pos ∧ (SoundFile.seek sf i).1.pos < ByteFile.size sf) ∧
      SoundFile.position (SoundFile.seek sf i).1 = ((SoundFile.seek sf i).1, i) := by
  have hne : sf.sample_size ≠ 0 := by omega
  have hcancel : Int.tdiv (sf.audioOffset + i * sf.sample_size - sf.audioOffset) sf.sample_size = i := by
    rw [add_sub_cancel_left]
    exact Int.mul_tdiv_cancel i hne
  have hmul : 0 ≤ i * sf.sample_size := Int.mul_nonneg hi (by omega)
  have hin : sf.audioOffset + i * sf.sample_size < ByteFile.size sf := by
    unfold SoundFile.length at hlen
    by_cases hx : 0 ≤ ByteFile.size sf - sf.audioOffset
    · have h1 := tdiv_mul_le_of_nonneg _ _ hx hs
      have h2 : (i + 1) * sf.sample_size
          ≤ Int.tdiv (ByteFile.size sf - sf.audioOffset) sf.sample_size * sf.sample_size :=
        Int.mul_le_mul_of_nonneg_right (by omega) (by omega)
      have h3 : (i + 1) * sf.sample_size = i * sf.sample_size + sf.sample_size := by ring
      omega
    · have h1 := tdiv_nonpos_of_neg (ByteFile.size sf - sf.audioOffset) sf.sample_size
        (by omega) hs
      omega
  refine ⟨?_, ?_, ⟨?_, ?_⟩, ?_⟩
  · simp only [SoundFile.seek, ByteFile.seek, hcancel]
  · simp only [SoundFile.seek, ByteFile.seek]
  · simp only [SoundFile.seek, ByteFile.seek]; omega
  · simp only [SoundFile.seek, ByteFile.seek]; exact hin
  · simp only [SoundFile.position, SoundFile.seek, ByteFile.seek, ByteFile.position, hcancel]
    rw [if_neg (by omega)]

/-- Witness of C3: sample 5 of the file `demo`, which holds 8 samples. -/
theorem SoundFile_seek_position_witness :
    (0 < demo.sample_size ∧ 0 ≤ demo.audioOffset ∧ (0 : Int) ≤ 5 ∧ 5 < SoundFile.length demo) ∧
    ((SoundFile.seek demo 5).2 = 5 ∧
      (SoundFile.seek demo 5).1.pos = demo.audioOffset + 5 * demo.sample_size ∧
      (0 ≤ (SoundFile.seek demo 5).1.pos ∧ (SoundFile.seek demo 5).1.pos < ByteFile.size demo) ∧
      SoundFile.position (SoundFile.seek demo 5).1 = ((SoundFile.seek demo 5).1, 5)) :=
  ⟨⟨by decide, by decide, by decide, by decide⟩,
    SoundFile_seek_position demo 5 (by decide) (by decide) (by decide) (by decide)⟩

/-- C4, as stated, fails: in the file `demo`, seeked to byte 43, the byte
stream is one byte before the payload offset 44; `position()` returns 0 and leaves the
stream at byte 43, not at byte 44. -/
theorem SoundFile_position_clamp_counterexample :
    ByteFile.position (ByteFile.seek demo 43).1 < demo.audioOffset ∧
      (SoundFile.position (ByteFile.seek demo 43).1).2 = 0 ∧
      (SoundFile.position (ByteFile.seek demo 43).1).1.pos = 43 ∧
      (SoundFile.position (ByteFile.seek demo 43).1).1.pos ≠ demo.audioOffset := by
  decide

/-- C4, amended. With a positive sample size, after the byte stream is seeked
to a byte position `b` before the payload offset, `position()` returns 0;
when `b` is at least one whole sample before the payload offset
(`b + sample_size ≤ audioOffset`, the computed index is negative) it leaves
the stream at byte `audioOffset`, sample 0; and in every state the index
`position()` returns is not negative. -/
theorem SoundFile_position_clamp (sf : SoundFile) (b : Int) (hs : 0 < sf.sample_size) :
    (b < sf.audioOffset → (SoundFile.position (ByteFile.seek sf b).1).2 = 0) ∧
      (b + sf.sample_size ≤ sf.audioOffset →
        (SoundFile.position (ByteFile.seek sf b).1).1.pos = sf.audioOffset ∧
        SoundFile.position (SoundFile.position (ByteFile.seek sf b).1).1
          = ((SoundFile.position (ByteFile.seek sf b).1).1, 0)) ∧
      0 ≤ (SoundFile.position sf).2 := by
  refine ⟨?_, ?_, ?_⟩
  · intro hb
    have h := tdiv_nonpos_of_neg (b - sf.audioOffset) sf.sample_size (by omega) hs
    simp only [SoundFile.position, ByteFile.seek, ByteFile.position]
    split
    · rfl
    · simp only; omega
  · intro hb
    have h := tdiv_neg_of_le_neg (b - sf.audioOffset) sf.sample_size (by omega) hs
    have h0 : Int.tdiv (sf.audioOffset + 0 * sf.sample_size - sf.audioOffset) sf.sample_size = 0 := by
      simp
    simp only [SoundFile.position, ByteFile.seek, ByteFile.position, if_pos h, SoundFile.seek,
      h0, lt_self_iff_false, if_false]
    simp
  · simp only [SoundFile.position]
    split
    · simp
    · simp only; omega

/-- Witness of C4, amended: the file `demo`, seeked to byte 12. -/
theorem SoundFile_position_clamp_witness :
    0 < demo.sample_size ∧
    ((12 < demo.audioOffset → (SoundFile.position (ByteFile.seek demo 12).1).2 = 0) ∧
      (12 + demo.sample_size ≤ demo.audioOffset →
        (SoundFile.position (ByteFile.seek demo 12).1).1.pos = demo.audioOffset ∧
        SoundFile.position (SoundFile.position (ByteFile.seek demo 12).1).1
          = ((SoundFile.position (ByteFile.seek demo 12).1).1, 0)) ∧
      0 ≤ (SoundFile.position demo).2) :=
  ⟨by decide, SoundFile_position_clamp demo 12 (by decide)⟩

/-! ## Reading: errors of the chunk readers -/

theorem WAVE_fmt_read_fields_err (sf : SoundFile) :
    Error.IsFormat (WAVE_fmt.read_fields sf).err := by
  unfold WAVE_fmt.read_fields Error.IsFormat
  simp only
  split_ifs <;> simp [Res.err]

theorem Chunk_read_err (c : Chunk) (sf : SoundFile) : Error.IsFormat (Chunk.read c sf).err := by
  unfold Chunk.read
  simp only
  split
  · simp [Res.err, Error.IsFormat]
  · simp [Res.err, Error.IsFormat]
  · simp [Res.err, Error.IsFormat]
  · have h := WAVE_fmt_read_fields_err (ByteFile.read_bytes 4 (ByteFile.read_bytes 4 sf).1).1
    split
    · simp [Res.err, Error.IsFormat]
    · rename_i e sf3 heq
      rw [heq] at h
      exact h

theorem promote_err (hk : Hooks) (c : Chunk) (sf : SoundFile) :
    Error.IsFormat (SoundFile.promote hk c sf).err := by
  unfold SoundFile.promote
  exact Chunk_read_err _ _

theorem promoteAll_err (hk : Hooks) (cs : List Chunk) (sf : SoundFile) :
    Error.IsFormat (SoundFile.promoteAll hk cs sf).err := by
  induction cs generalizing sf with
  | nil => simp [SoundFile.promoteAll, Res.err, Error.IsFormat]
  | cons c cs ih =>
    simp only [SoundFile.promoteAll]
    split
    · rename_i e sf1 heq
      have h := promote_err hk c sf
      rw [heq] at h
      exact h
    · rename_i c1 sf1 heq
      have h := ih sf1
      split
      · rename_i e sf2 heq2
        rw [heq2] at h
        exact h
      · simp [Res.err, Error.IsFormat]

theorem readBody_err (hk : Hooks) (h : Header) (sf : SoundFile) :
    (SoundFile.readBody hk h sf).err ≠ some Error.UnrecognizedFileType := by
  unfold SoundFile.readBody
  split
  · have hp := promoteAll_err hk h.chunks sf
    split
    · rename_i e sf1 heq
      rw [heq] at hp
      rcases hp with hp | hp | hp <;> simp [Res.err] at hp ⊢ <;> simp [hp]
    · simp [Res.err]
  · simp [Res.err]
  · simp [Res.err]

/-! ## Container dispatch -/

/-- C5. The dispatch of `read_file` on the tag and format of the header it has
read: `RIFF` with `WAVE` sets the container kind to `WAVE` and `read_file`
raises neither the unrecognized-file-type nor the unsupported-container-kind
error; `FORM` with `AIFF` makes `read_file` raise the
unsupported-container-kind error; an all-zero tag hands the state to
`create_file` and reading goes on from the state it leaves; and `read_file`
raises the unrecognized-file-type error exactly when the pair is neither
`RIFF` with `WAVE` nor `FORM` with `AIFF` and the tag is not all-zero. -/
theorem read_file_dispatch (hk : Hooks) (sf sf1 : SoundFile) (h : Header)
    (hread : Header.read Header.fresh (ByteFile.seek sf 0).1 = .ok h sf1) :
    (h.id = RIFF ∧ h.format = WAVE →
        SoundFile.dispatch hk h sf1 = .ok () { sf1 with info := { sf1.info with type := .WAVE } } ∧
        (SoundFile.read_file hk sf).err ≠ some Error.UnrecognizedFileType ∧
        (SoundFile.read_file hk sf).err ≠ some Error.UnsupportedContainerKind) ∧
      (h.id = FORM ∧ h.format = AIFF →
        (SoundFile.read_file hk sf).err = some Error.UnsupportedContainerKind) ∧
      (h.id = 0 →
        SoundFile.dispatch hk h sf1 = .ok () (hk.create_file sf1) ∧
        SoundFile.read_file hk sf = SoundFile.readBody hk h (hk.create_file sf1)) ∧
      ((SoundFile.read_file hk sf).err = some Error.UnrecognizedFileType ↔
        ¬(h.id = RIFF ∧ h.format = WAVE) ∧ ¬(h.id = FORM ∧ h.format = AIFF) ∧ h.id ≠ 0) := by
  have hRF : RIFF ≠ FORM := by decide
  have hR0 : RIFF ≠ 0 := by decide
  have hF0 : FORM ≠ 0 := by decide
  refine ⟨?_, ?_, ?_, ?_⟩
  · rintro ⟨h1, h2⟩
    have hd : SoundFile.dispatch hk h sf1
        = .ok () { sf1 with info := { sf1.info with type := .WAVE } } := by
      simp [SoundFile.dispatch, h1, h2]
    refine ⟨hd, ?_, ?_⟩
    · simp only [SoundFile.read_file, hread, hd]
      exact readBody_err _ _ _
    · simp only [SoundFile.read_file, hread, hd, SoundFile.readBody]
      have hp := promoteAll_err hk h.chunks { sf1 with info := { sf1.info with type := .WAVE } }
      split
      · rename_i e sf2 heq
        rw [heq] at hp
        rcases hp with hp | hp | hp <;> simp [Res.err] at hp ⊢ <;> simp [hp]
      · simp [Res.err]
  · rintro ⟨h1, h2⟩
    have hd : SoundFile.dispatch hk h sf1
        = .ok () { sf1 with info := { sf1.info with type := .AIFF } } := by
      simp [SoundFile.dispatch, h1, h2, hRF.symm]
    simp [SoundFile.read_file, hread, hd, SoundFile.readBody, Res.err]
  · intro h1
    have hd : SoundFile.dispatch hk h sf1 = .ok () (hk.create_file sf1) := by
      simp [SoundFile.dispatch, h1, hR0.symm, hF0.symm]
    exact ⟨hd, by simp only [SoundFile.read_file, hread, hd]⟩
  · simp only [SoundFile.read_file, hread]
    by_cases hw : h.id = RIFF ∧ h.format = WAVE
    · have hd : SoundFile.dispatch hk h sf1
          = .ok () { sf1 with info := { sf1.info with type := .WAVE } } := by
        simp [SoundFile.dispatch, hw.1, hw.2]
      simp only [hd]
      have := readBody_err hk h { sf1 with info := { sf1.info with type := .WAVE } }
      simp [this, hw]
    · by_cases ha : h.id = FORM ∧ h.format = AIFF
      · have hd : SoundFile.dispatch hk h sf1
            = .ok () { sf1 with info := { sf1.info with type := .AIFF } } := by
          simp [SoundFile.dispatch, ha.1, ha.2, hRF.symm]
        simp only [hd]
        have := readBody_err hk h { sf1 with info := { sf1.info with type := .AIFF } }
        simp [this, ha]
      · by_cases hz : h.id = 0
        · have hd : SoundFile.dispatch hk h sf1 = .ok () (hk.create_file sf1) := by
            simp [SoundFile.dispatch, hz, hR0.symm, hF0.symm]
          simp only [hd]
          have := readBody_err hk h (hk.create_file sf1)
          simp [this, hz]
        · have hd : SoundFile.dispatch hk h sf1 = .throw .UnrecognizedFileType sf1 := by
            simp [SoundFile.dispatch, hw, ha, hz]
          simp [hd, Res.err, hw, ha, hz]

/-- Witness of C5: the header of the stream `wavBytes`, tagged `RIFF` with
format `WAVE`. -/
theorem read_file_dispatch_witness :
    Header.read Header.fresh (ByteFile.seek wavDemo 0).1
        = .ok ⟨RIFF, 44, 0, WAVE, [⟨FMT, 16, 12, .generic⟩, ⟨DATA, 8, 36, .generic⟩]⟩
            { wavDemo with pos := 52 } ∧
    ((RIFF = RIFF ∧ WAVE = WAVE →
        SoundFile.dispatch noHooks
            ⟨RIFF, 44, 0, WAVE, [⟨FMT, 16, 12, .generic⟩, ⟨DATA, 8, 36, .generic⟩]⟩
            { wavDemo with pos := 52 }
          = .ok () { wavDemo with pos := 52 } ∧
        (SoundFile.read_file noHooks wavDemo).err ≠ some Error.UnrecognizedFileType ∧
        (SoundFile.read_file noHooks wavDemo).err ≠ some Error.UnsupportedContainerKind) ∧
      (RIFF = FORM ∧ WAVE = AIFF →
        (SoundFile.read_file noHooks wavDemo).err = some Error.UnsupportedContainerKind) ∧
      (RIFF = 0 →
        SoundFile.dispatch noHooks
            ⟨RIFF, 44, 0, WAVE, [⟨FMT, 16, 12, .generic⟩, ⟨DATA, 8, 36, .generic⟩]⟩
            { wavDemo with pos := 52 }
          = .ok () (noHooks.create_file { wavDemo with pos := 52 }) ∧
        SoundFile.read_file noHooks wavDemo = SoundFile.readBody noHooks
            ⟨RIFF, 44, 0, WAVE, [⟨FMT, 16, 12, .generic⟩, ⟨DATA, 8, 36, .generic⟩]⟩
            (noHooks.create_file { wavDemo with pos := 52 })) ∧
      ((SoundFile.read_file noHooks wavDemo).err = some Error.UnrecognizedFileType ↔
        ¬(RIFF = RIFF ∧ WAVE = WAVE) ∧ ¬(RIFF = FORM ∧ WAVE = AIFF) ∧ RIFF ≠ 0)) :=
  ⟨by decide, read_file_dispatch noHooks wavDemo { wavDemo with pos := 52 }
    ⟨RIFF, 44, 0, WAVE, [⟨FMT, 16, 12, .generic⟩, ⟨DATA, 8, 36, .generic⟩]⟩ (by decide)⟩

/-! ## Bounded scan -/

theorem Chunk_read_generic (sf : SoundFile) :
    ∃ c sf1, Chunk.read ⟨0, 0, 0, .generic⟩ sf = .ok c sf1 ∧ c.offset = sf.pos :=
  ⟨_, _, rfl, rfl⟩

/-- The scan with enough fuel: a success records the declared children, all
inside the range, tiling it; a throw is the malformed-container error and
some declared child crosses the end of the range. -/
theorem scanChunks_char (fuel : Nat) (sf : SoundFile) (p stop : Int)
    (hf : (stop - p).toNat ≤ fuel) :
    (∀ cs sf1, scanChunks fuel sf p stop = .ok cs sf1 →
        cs = declaredChunks fuel sf p stop ∧
        (∀ c ∈ cs, p ≤ c.offset ∧ c.offset + 8 + c.size ≤ stop) ∧ Tiles p cs stop) ∧
      (∀ e sf1, scanChunks fuel sf p stop = .throw e sf1 →
        e = Error.MalformedContainer ∧
        ∃ c ∈ declaredChunks fuel sf p stop, stop < c.offset + 8 + c.size) := by
  induction fuel generalizing sf p with
  | zero =>
    have hle : stop ≤ p := by omega
    constructor
    · intro cs sf1 h
      simp only [scanChunks, Res.ok.injEq] at h
      obtain ⟨rfl, -⟩ := h
      simp [declaredChunks, Tiles, hle]
    · intro e sf1 h
      simp [scanChunks] at h
  | succ n ih =>
    by_cases hp : p < stop
    · obtain ⟨c, sf1, hc, hoff⟩ := Chunk_read_generic (ByteFile.seek sf p).1
      have hoff1 : c.offset = p := hoff
      by_cases hx : c.offset + 8 + c.size > stop
      · constructor
        · intro cs sf2 h
          simp [scanChunks, hp, hc, hx] at h
        · intro e sf2 h
          simp only [scanChunks, hp, hc, hx, if_true, Res.throw.injEq] at h
          refine ⟨h.1.symm, c, ?_, hx⟩
          simp [declaredChunks, hp, hc]
      · have hf1 : (stop - (c.offset + 8 + c.size)).toNat ≤ n := by omega
        obtain ⟨ih1, ih2⟩ := ih (ByteFile.seek sf1 (c.offset + 8 + c.size)).1
          (c.offset + 8 + c.size) hf1
        constructor
        · intro cs sf2 h
          simp only [scanChunks, hp, hc, hx, if_true, if_false] at h
          split at h
          · simp at h
          · rename_i cs1 sf3 heq
            simp only [Res.ok.injEq] at h
            obtain ⟨rfl, -⟩ := h
            obtain ⟨e1, e2, e3⟩ := ih1 cs1 sf3 heq
            refine ⟨?_, ?_, ?_⟩
            · simp only [declaredChunks, hp, hc, if_true, ← e1]
            · intro d hd
              rcases List.mem_cons.1 hd with rfl | hd
              · constructor <;> omega
              · have := e2 d hd
                constructor <;> omega
            · exact ⟨hp, hoff1, e3⟩
        · intro e sf2 h
          simp only [scanChunks, hp, hc, hx, if_true, if_false] at h
          split at h
          · rename_i e1 sf3 heq
            simp only [Res.throw.injEq] at h
            obtain ⟨rfl, -⟩ := h
            obtain ⟨e2, d, hd, hd2⟩ := ih2 e1 sf3 heq
            refine ⟨e2, d, ?_, hd2⟩
            simp only [declaredChunks, hp, hc, if_true]
            exact List.mem_cons_of_mem _ hd
          · simp at h
    · constructor
      · intro cs sf1 h
        simp only [scanChunks, hp, if_false, Res.ok.injEq] at h
        obtain ⟨rfl, -⟩ := h
        simp only [declaredChunks, hp, if_false, Tiles]
        simp
        omega
      · intro e sf1 h
        simp [scanChunks, hp] at h

/-- C6. Bounded scan of `Header::read_fields` over the range from
`start = offset + 12` to `stop = offset + 8 + size`: if one of the children
the range declares has an extent crossing `stop`, reading the header
raises the malformed-container error, and that is the only error it
raises and the only case in which it raises it; on success the children
recorded are exactly the declared ones, each lies within the range, and
together they tile it, so the child list is neither truncated nor
overrunning. -/
theorem Header_read_fields_bounded (h : Header) (sf : SoundFile) :
    ((∃ c ∈ declaredChunks ((h.offset + 8 + h.size) - (h.offset + 12)).toNat
            (ByteFile.read_bytes 4 sf).1 (h.offset + 12) (h.offset + 8 + h.size),
          h.offset + 8 + h.size < c.offset + 8 + c.size) ↔
        (Header.read_fields h sf).err = some Error.MalformedContainer) ∧
      ((Header.read_fields h sf).err = none ∨
        (Header.read_fields h sf).err = some Error.MalformedContainer) ∧
      (∀ h1 sf1, Header.read_fields h sf = .ok h1 sf1 →
        ∃ cs, h1.chunks = h.chunks ++ cs ∧
          cs = declaredChunks ((h.offset + 8 + h.size) - (h.offset + 12)).toNat
            (ByteFile.read_bytes 4 sf).1 (h.offset + 12) (h.offset + 8 + h.size) ∧
          (∀ c ∈ cs, h.offset + 12 ≤ c.offset ∧ c.offset + 8 + c.size ≤ h.offset + 8 + h.size) ∧
          Tiles (h.offset + 12) cs (h.offset + 8 + h.size)) := by
  obtain ⟨hok, hthrow⟩ := scanChunks_char ((h.offset + 8 + h.size) - (h.offset + 12)).toNat
    (ByteFile.read_bytes 4 sf).1 (h.offset + 12) (h.offset + 8 + h.size) (le_refl _)
  simp only [Header.read_fields, ByteFile.for_chunks_in_range]
  cases hs : scanChunks ((h.offset + 8 + h.size) - (h.offset + 12)).toNat
      (ByteFile.read_bytes 4 sf).1 (h.offset + 12) (h.offset + 8 + h.size) with
  | ok cs sf1 =>
    obtain ⟨e1, e2, e3⟩ := hok cs sf1 hs
    refine ⟨?_, ?_, ?_⟩
    · simp only [Res.err]
      constructor
      · rintro ⟨c, hc, hlt⟩
        rw [← e1] at hc
        have := (e2 c hc).2
        omega
      · intro hne
        simp at hne
    · simp [Res.err]
    · intro h1 sf2 heq
      simp only [Res.ok.injEq] at heq
      obtain ⟨rfl, -⟩ := heq
      exact ⟨cs, rfl, e1, e2, e3⟩
  | throw e sf1 =>
    obtain ⟨e1, e2⟩ := hthrow e sf1 hs
    subst e1
    refine ⟨?_, ?_, ?_⟩
    · exact ⟨fun _ => rfl, fun _ => e2⟩
    · simp [Res.err]
    · intro h1 sf2 heq
      simp at heq

/-- The header of `shortHeaderDemo` declares size 30 while its data chunk
ends at byte 52: reading it raises the malformed-container error. -/
theorem Header_read_short_header :
    (Header.read Header.fresh shortHeaderDemo).err = some Error.MalformedContainer := by
  decide

/-! ## Writing: the stream as a function of the bytes emitted -/

theorem writeAt_length_prefix (d : List Nat) (p : Nat) :
    (d.take p ++ List.replicate (p - d.length) 0).length = p := by
  simp only [List.length_append, List.length_take, List.length_replicate]
  omega

theorem writeAt_append (d : List Nat) (p : Nat) (a b : List Nat) :
    ByteFile.writeAt (ByteFile.writeAt d p a) (p + a.length) b = ByteFile.writeAt d p (a ++ b) := by
  have hP := writeAt_length_prefix d p
  unfold ByteFile.writeAt
  generalize d.take p ++ List.replicate (p - d.length) 0 = P at hP
  have h1 : (P ++ a ++ List.drop (p + a.length) d).take (p + a.length) = P ++ a :=
    List.take_left' (by simp [hP])
  have h2 : p + a.length - (P ++ a ++ List.drop (p + a.length) d).length = 0 := by
    simp only [List.length_append, hP]
    omega
  have h3 : (P ++ a ++ List.drop (p + a.length) d).drop (p + a.length + b.length)
      = d.drop (p + (a ++ b).length) := by
    rw [← List.drop_drop, List.drop_left' (by simp [hP]), List.drop_drop, List.length_append]
    congr 1
    omega
  rw [h1, h2, h3]
  simp

theorem writeAt_zero (d bs : List Nat) : ByteFile.writeAt d 0 bs = bs ++ d.drop bs.length := by
  simp [ByteFile.writeAt]

theorem write_bytes_eq_raw (n v : Nat) (sf : SoundFile) :
    ByteFile.write_bytes n v sf = ByteFile.write_raw (leBytes n v) sf := by
  simp [ByteFile.write_bytes, ByteFile.write_raw, leBytes_length]

theorem write_raw_append (a b : List Nat) (sf : SoundFile) (hp : 0 ≤ sf.pos) :
    ByteFile.write_raw b (ByteFile.write_raw a sf) = ByteFile.write_raw (a ++ b) sf := by
  have h1 : (sf.pos + (a.length : Int)).toNat = sf.pos.toNat + a.length := by omega
  simp only [ByteFile.write_raw, h1, writeAt_append, List.length_append, Nat.cast_add, add_assoc]

theorem write_raw_pos_nonneg (a : List Nat) (sf : SoundFile) (hp : 0 ≤ sf.pos) :
    0 ≤ (ByteFile.write_raw a sf).pos := by
  simp only [ByteFile.write_raw]
  omega

theorem WAVE_fmt_write_fields_eq (old : FmtFields) (sf : SoundFile) (hp : 0 ≤ sf.pos) :
    WAVE_fmt.write_fields old sf
      = (ByteFile.write_raw (fmtPayload (WAVE_fmt.computed sf)) sf, WAVE_fmt.computed sf) := by
  simp only [WAVE_fmt.write_fields, write_bytes_eq_raw, fmtPayload]
  rw [write_raw_append _ _ _ hp, write_raw_append _ _ _ hp, write_raw_append _ _ _ hp,
    write_raw_append _ _ _ hp, write_raw_append _ _ _ hp]
  simp only [List.append_assoc]

theorem writeAt_length_ge (d : List Nat) (p : Nat) (bs : List Nat) :
    p + bs.length ≤ (ByteFile.writeAt d p bs).length := by
  have hP := writeAt_length_prefix d p
  unfold ByteFile.writeAt
  simp only [List.length_append] at hP ⊢
  omega

theorem writeAt_nil (d : List Nat) (p : Nat) (h : p ≤ d.length) : ByteFile.writeAt d p [] = d := by
  simp [ByteFile.writeAt, Nat.sub_eq_zero_of_le h]

theorem Chunk_write_eq (c : Chunk) (sf : SoundFile) (hp : 0 ≤ sf.pos) :
    Chunk.write c sf =
      ({ sf with
          data := ByteFile.writeAt sf.data sf.pos.toNat (c.emitted (WAVE_fmt.computed sf))
          pos := sf.pos + ((c.emitted (WAVE_fmt.computed sf)).length : Nat)
          audioOffset := if c.variant = .data then sf.pos + 8 else sf.audioOffset },
        c.placed (WAVE_fmt.computed sf) sf.pos) := by
  have hp2 : 0 ≤ (ByteFile.write_raw (leBytes 4 c.id ++ leBytes 4 c.size) sf).pos :=
    write_raw_pos_nonneg _ _ hp
  obtain ⟨id, size, offset, variant⟩ := c
  cases variant with
  | generic =>
    simp only [Chunk.write, write_bytes_eq_raw, write_raw_append _ _ _ hp, Chunk.emitted,
      Chunk.placed, ByteFile.position, List.append_nil, reduceCtorEq, if_false]
    rfl
  | custom p =>
    simp only [Chunk.write, write_bytes_eq_raw, write_raw_append _ _ _ hp,
      Chunk.emitted, Chunk.placed, ByteFile.position,
      List.append_assoc, reduceCtorEq, if_false]
    rfl
  | data =>
    simp only [Chunk.write, write_bytes_eq_raw, write_raw_append _ _ _ hp, Chunk.emitted,
      Chunk.placed, ByteFile.position, List.append_nil, if_true, WAVE_data.write_fields]
    rfl
  | fmt f =>
    simp only [Chunk.write, write_bytes_eq_raw, write_raw_append _ _ _ hp] at hp2 ⊢
    rw [WAVE_fmt_write_fields_eq _ _ hp2]
    simp only [write_raw_append _ _ _ hp, Chunk.emitted, Chunk.placed, ByteFile.position,
      List.append_assoc, reduceCtorEq, if_false]
    rfl

theorem writeChunks_eq (cs : List Chunk) (sf : SoundFile) (hp : 0 ≤ sf.pos)
    (hle : sf.pos.toNat ≤ sf.data.length) :
    writeChunks cs sf =
      ({ sf with
          data := ByteFile.writeAt sf.data sf.pos.toNat
            (cs.flatMap (Chunk.emitted (WAVE_fmt.computed sf)))
          pos := sf.pos + ((cs.flatMap (Chunk.emitted (WAVE_fmt.computed sf))).length : Nat)
          audioOffset := publishedOffset (WAVE_fmt.computed sf) sf.audioOffset sf.pos cs },
        layout (WAVE_fmt.computed sf) sf.pos cs) := by
  induction cs generalizing sf with
  | nil =>
    simp [writeChunks, writeAt_nil _ _ hle, publishedOffset, layout]
  | cons c cs ih =>
    have h1 : (sf.pos + ((c.emitted (WAVE_fmt.computed sf)).length : Int)).toNat
        = sf.pos.toNat + (c.emitted (WAVE_fmt.computed sf)).length := by omega
    have hle1 := writeAt_length_ge sf.data sf.pos.toNat (c.emitted (WAVE_fmt.computed sf))
    rw [writeChunks, Chunk_write_eq c sf hp]
    simp only
    rw [ih _ (by simp only; omega) (by simp only; omega)]
    have hc : ∀ (d : List Nat) (p a : Int),
        WAVE_fmt.computed { sf with data := d, pos := p, audioOffset := a }
          = WAVE_fmt.computed sf := fun _ _ _ => rfl
    simp only [hc, List.flatMap_cons, publishedOffset, layout, h1, writeAt_append,
      List.length_append, Nat.cast_add, add_assoc]

theorem emitted_length_ge (f : FmtFields) (c : Chunk) : 8 ≤ (c.emitted f).length := by
  simp only [Chunk.emitted, List.length_append, leBytes_length]
  omega

theorem publishedOffset_append_data (f : FmtFields) (a p : Int) (cs : List Chunk) (c : Chunk)
    (hc : c.variant = .data) :
    publishedOffset f a p (cs ++ [c]) = p + ((cs.flatMap (Chunk.emitted f)).length : Nat) + 8 := by
  induction cs generalizing a p with
  | nil => simp [publishedOffset, hc]
  | cons d ds ih =>
    rw [List.cons_append, publishedOffset, ih, List.flatMap_cons, List.length_append]
    push_cast
    ring

theorem layout_append (f : FmtFields) (p : Int) (cs ds : List Chunk) :
    layout f p (cs ++ ds)
      = layout f p cs ++ layout f (p + ((cs.flatMap (Chunk.emitted f)).length : Nat)) ds := by
  induction cs generalizing p with
  | nil => simp [layout]
  | cons c cs ih =>
    rw [List.cons_append, layout, ih, layout, List.flatMap_cons, List.length_append]
    simp only [List.cons_append, Nat.cast_add, add_assoc]

theorem layout_map_id (f : FmtFields) (p : Int) (cs : List Chunk) :
    (layout f p cs).map Chunk.id = cs.map Chunk.id := by
  induction cs generalizing p with
  | nil => rfl
  | cons c cs ih => simp [layout, ih, Chunk.placed]

theorem layout_map_size (f : FmtFields) (p : Int) (cs : List Chunk) :
    (layout f p cs).map Chunk.size = cs.map Chunk.size := by
  induction cs generalizing p with
  | nil => rfl
  | cons c cs ih => simp [layout, ih, Chunk.placed]

theorem layout_offset_ge (f : FmtFields) (p : Int) (cs : List Chunk) :
    ∀ c ∈ layout f p cs, p ≤ c.offset := by
  induction cs generalizing p with
  | nil => simp [layout]
  | cons d ds ih =>
    intro c hc
    simp only [layout, List.mem_cons] at hc
    rcases hc with rfl | hc
    · simp [Chunk.placed]
    · have := ih _ c hc
      have := emitted_length_ge f d
      omega

theorem layout_offsets_increasing (f : FmtFields) (p : Int) (cs : List Chunk) :
    List.Pairwise (fun a b : Chunk => a.offset < b.offset) (layout f p cs) := by
  induction cs generalizing p with
  | nil => simp [layout]
  | cons d ds ih =>
    simp only [layout, List.pairwise_cons]
    refine ⟨?_, ih _⟩
    intro c hc
    have := layout_offset_ge f _ ds c hc
    have := emitted_length_ge f d
    simp only [Chunk.placed]
    omega

theorem waveImage_length (hk : Hooks) (sf : SoundFile) :
    ((waveImage hk sf).length : Int)
      = 12 + (((SoundFile.writeChildren hk sf).flatMap
          (Chunk.emitted (WAVE_fmt.computed sf))).length : Nat) := by
  simp only [waveImage, List.length_append, leBytes_length]
  push_cast
  ring

/-- What `write_file` does for the `WAVE` kind: the stream receives the image
from byte 0 on, the cursor ends behind it, the payload offset published is
the length of the image, and the header holds the children as laid out from
byte 12 on. -/
theorem write_file_wave (hk : Hooks) (sf : SoundFile) (ht : sf.info.type = .WAVE) :
    SoundFile.write_file hk sf =
      .ok ⟨RIFF, 0, 0, WAVE, layout (WAVE_fmt.computed sf) 12 (SoundFile.writeChildren hk sf)⟩
        { sf with
          data := waveImage hk sf ++ sf.data.drop (waveImage hk sf).length
          pos := ((waveImage hk sf).length : Nat)
          audioOffset := ((waveImage hk sf).length : Nat) } := by
  have hpub : publishedOffset (WAVE_fmt.computed sf) sf.audioOffset 12
      (SoundFile.writeChildren hk sf) = ((waveImage hk sf).length : Nat) := by
    rw [waveImage_length]
    unfold SoundFile.writeChildren
    rw [publishedOffset_append_data _ _ _ _ _ rfl]
    simp only [List.flatMap_append, List.length_append, List.flatMap_cons, List.flatMap_nil,
      List.append_nil, Chunk.emitted, leBytes_length]
    push_cast
    ring
  have h12 : (leBytes 4 RIFF ++ (leBytes 4 0 ++ leBytes 4 WAVE)).length = 12 := by
    simp [leBytes_length]
  have hw := writeAt_length_ge sf.data 0 (leBytes 4 RIFF ++ (leBytes 4 0 ++ leBytes 4 WAVE))
  rw [h12] at hw
  have h0 : (0 : Int) ≤ ({ sf with pos := 0 } : SoundFile).pos := le_refl _
  have hraw : ByteFile.write_raw (leBytes 4 WAVE) (ByteFile.write_raw (leBytes 4 0)
      (ByteFile.write_raw (leBytes 4 RIFF) { sf with pos := 0 }))
      = { sf with
          data := ByteFile.writeAt sf.data 0 (leBytes 4 RIFF ++ (leBytes 4 0 ++ leBytes 4 WAVE))
          pos := 12 } := by
    rw [write_raw_append (leBytes 4 RIFF) (leBytes 4 0) _ h0,
      write_raw_append (leBytes 4 RIFF ++ leBytes 4 0) (leBytes 4 WAVE) _ h0]
    simp only [ByteFile.write_raw, List.append_assoc, h12]
    rfl
  have hchunks := writeChunks_eq (SoundFile.writeChildren hk sf)
    { sf with
      data := ByteFile.writeAt sf.data 0 (leBytes 4 RIFF ++ (leBytes 4 0 ++ leBytes 4 WAVE))
      pos := 12 } (by simp) (by simpa using hw)
  have hc : WAVE_fmt.computed { sf with
      data := ByteFile.writeAt sf.data 0 (leBytes 4 RIFF ++ (leBytes 4 0 ++ leBytes 4 WAVE))
      pos := 12 } = WAVE_fmt.computed sf := rfl
  have hwc : SoundFile.writeChildren hk { sf with pos := 0 } = SoundFile.writeChildren hk sf := rfl
  have h12' : (12 : Int).toNat = 0 + (leBytes 4 RIFF ++ (leBytes 4 0 ++ leBytes 4 WAVE)).length := by
    rw [h12]; rfl
  simp only [hc, h12', writeAt_append] at hchunks
  simp only [SoundFile.write_file, ByteFile.seek, ht, Header.write, Header.write_fields,
    Header.fresh, write_bytes_eq_raw, ByteFile.position, hraw, hwc, hchunks, hpub]
  simp only [writeAt_zero, waveImage, List.append_assoc]
  have hl := waveImage_length hk sf
  simp only [waveImage] at hl
  rw [hl]

/-! ## The format chunk on writing -/

theorem toField_of_fits (n : Nat) (v : Int) (h0 : 0 ≤ v) (h1 : v < (256 ^ n : Nat)) :
    (toField n v : Int) = v := by
  unfold toField
  rw [Int.emod_eq_of_lt h0 h1]
  exact Int.toNat_of_nonneg h0

set_option maxRecDepth 8000 in
/-- C7, as stated, fails outside the widths of the fields. In `wideDemo`, with
65536 channels, `write_fields` writes `numChannels = 0`, not the channel count
of the `SoundFile`. In `manyDemo`, with 4000 channels at 44100 Hz and four-byte
samples, it writes `numChannels = 4000`, `sampleRate = 44100` and
`bitsPerSample = 32` but `byteRate = 168729088`, not
`sampleRate * numChannels * bitsPerSample / 8 = 705600000`. -/
theorem WAVE_fmt_write_fields_counterexample :
    (wideDemo.info.channels = 65536 ∧
      (WAVE_fmt.write_fields FmtFields.fresh wideDemo).2.numChannels = 0 ∧
      ((WAVE_fmt.write_fields FmtFields.fresh wideDemo).2.numChannels : Int)
        ≠ wideDemo.info.channels) ∧
    ((WAVE_fmt.write_fields FmtFields.fresh manyDemo).2.numChannels = 4000 ∧
      (WAVE_fmt.write_fields FmtFields.fresh manyDemo).2.sampleRate = 44100 ∧
      (WAVE_fmt.write_fields FmtFields.fresh manyDemo).2.bitsPerSample = 32 ∧
      (WAVE_fmt.write_fields FmtFields.fresh manyDemo).2.byteRate = 168729088 ∧
      (WAVE_fmt.write_fields FmtFields.fresh manyDemo).2.sampleRate *
        (WAVE_fmt.write_fields FmtFields.fresh manyDemo).2.numChannels *
        (WAVE_fmt.write_fields FmtFields.fresh manyDemo).2.bitsPerSample / 8 = 705600000 ∧
      (WAVE_fmt.write_fields FmtFields.fresh manyDemo).2.byteRate ≠
        (WAVE_fmt.write_fields FmtFields.fresh manyDemo).2.sampleRate *
          (WAVE_fmt.write_fields FmtFields.fresh manyDemo).2.numChannels *
          (WAVE_fmt.write_fields FmtFields.fresh manyDemo).2.bitsPerSample / 8) := by
  decide

/-- C7, amended. `WAVE_fmt::write_fields`, in every state whose channel count,
sample rate and `8 * sample_size` fit their fields, whose product
`samplerate * channels * (8 * sample_size)` fits 32 bits, and whose cursor is
at a byte of the stream, and whatever the six fields of the chunk held
before: the fields written are `audioFormat = 3`, `numChannels` and
`sampleRate` equal to those of the `SoundFile`, `bitsPerSample = 8 * sample_size`,
`byteRate = sampleRate * numChannels * bitsPerSample / 8` and
`blockAlign = numChannels * bitsPerSample / 8`; their bytes are stored at the
cursor in the order `audioFormat`, `numChannels`, `sampleRate`, `byteRate`,
`blockAlign`, `bitsPerSample`, and the cursor advances by their number; the
result does not depend on the fields held before. -/
theorem WAVE_fmt_write_fields_spec (old : FmtFields) (sf : SoundFile)
    (hp : 0 ≤ sf.pos) (hfit : sf.FitsFields) :
    (WAVE_fmt.write_fields old sf).2.audioFormat = 3 ∧
      ((WAVE_fmt.write_fields old sf).2.numChannels : Int) = sf.info.channels ∧
      ((WAVE_fmt.write_fields old sf).2.sampleRate : Int) = sf.info.samplerate ∧
      ((WAVE_fmt.write_fields old sf).2.bitsPerSample : Int) = 8 * sf.sample_size ∧
      (WAVE_fmt.write_fields old sf).2.byteRate =
        (WAVE_fmt.write_fields old sf).2.sampleRate * (WAVE_fmt.write_fields old sf).2.numChannels *
          (WAVE_fmt.write_fields old sf).2.bitsPerSample / 8 ∧
      (WAVE_fmt.write_fields old sf).2.blockAlign =
        (WAVE_fmt.write_fields old sf).2.numChannels *
          (WAVE_fmt.write_fields old sf).2.bitsPerSample / 8 ∧
      (WAVE_fmt.write_fields old sf).1 =
        { sf with
          data := ByteFile.writeAt sf.data sf.pos.toNat
            (leBytes 2 (WAVE_fmt.write_fields old sf).2.audioFormat ++
              (leBytes 2 (WAVE_fmt.write_fields old sf).2.numChannels ++
              (leBytes 4 (WAVE_fmt.write_fields old sf).2.sampleRate ++
              (leBytes 4 (WAVE_fmt.write_fields old sf).2.byteRate ++
              (leBytes 2 (WAVE_fmt.write_fields old sf).2.blockAlign ++
              leBytes 2 (WAVE_fmt.write_fields old sf).2.bitsPerSample)))))
          pos := sf.pos + 16 } ∧
      (WAVE_fmt.write_fields old sf).2.InRange ∧
      ∀ other : FmtFields, WAVE_fmt.write_fields other sf = WAVE_fmt.write_fields old sf := by
  obtain ⟨⟨c0, c1⟩, ⟨r0, r1⟩, ⟨s0, s1⟩, hbr, hba⟩ := hfit
  have hs8 : 0 ≤ sf.sample_size * 8 := by omega
  have ec := toField_of_fits 2 sf.info.channels c0 (by simpa using c1)
  have er := toField_of_fits 4 sf.info.samplerate r0 (by simpa using r1)
  have eb := toField_of_fits 2 (sf.sample_size * 8) hs8 (by simpa using s1)
  have hprod : (toField 4 sf.info.samplerate * toField 2 sf.info.channels
      * toField 2 (sf.sample_size * 8) : Nat) < 2 ^ 32 := by
    have : ((toField 4 sf.info.samplerate * toField 2 sf.info.channels
        * toField 2 (sf.sample_size * 8) : Nat) : Int) < 2 ^ 32 := by
      push_cast
      rw [ec, er, eb]
      exact hbr
    exact_mod_cast this
  have hba' : (toField 2 sf.info.channels * toField 2 (sf.sample_size * 8) / 8 : Nat) < 2 ^ 16 := by
    have : ((toField 2 sf.info.channels * toField 2 (sf.sample_size * 8) / 8 : Nat) : Int)
        < 2 ^ 16 := by
      push_cast
      rw [ec, eb]
      exact hba
    exact_mod_cast this
  rw [WAVE_fmt_write_fields_eq old sf hp]
  refine ⟨rfl, ec, er, ?_, ?_, ?_, ?_, ?_, ?_⟩
  · simp only [WAVE_fmt.computed, eb]
    ring
  · simp only [WAVE_fmt.computed, Nat.mod_eq_of_lt hprod]
  · simp only [WAVE_fmt.computed, Nat.mod_eq_of_lt hba']
  · simp only [ByteFile.write_raw, fmtPayload, List.length_append, leBytes_length]
    rfl
  · have hc : (toField 2 sf.info.channels : Int) < 2 ^ 16 := by rw [ec]; exact c1
    have hr : (toField 4 sf.info.samplerate : Int) < 2 ^ 32 := by rw [er]; exact r1
    have hb : (toField 2 (sf.sample_size * 8) : Int) < 2 ^ 16 := by rw [eb]; exact s1
    simp only [FmtFields.InRange, WAVE_fmt.computed, Nat.mod_eq_of_lt hprod,
      Nat.mod_eq_of_lt hba']
    refine ⟨by norm_num, by omega, by omega, ?_, by omega, by omega⟩
    have := Nat.div_le_self (toField 4 sf.info.samplerate * toField 2 sf.info.channels
      * toField 2 (sf.sample_size * 8)) 8
    omega
  · intro other
    rw [WAVE_fmt_write_fields_eq other sf hp]

/-- Witness of C7, amended: the file `demo`, stereo at 44100 Hz with four-byte
samples, its cursor at byte 0. -/
theorem WAVE_fmt_write_fields_spec_witness :
    (0 ≤ demo.pos ∧ demo.FitsFields) ∧
    (WAVE_fmt.write_fields FmtFields.fresh demo).2 = ⟨3, 2, 44100, 352800, 8, 32⟩ ∧
    (∀ other : FmtFields,
      WAVE_fmt.write_fields other demo = WAVE_fmt.write_fields FmtFields.fresh demo) :=
  ⟨⟨by decide, by decide⟩, by decide,
    (WAVE_fmt_write_fields_spec FmtFields.fresh demo (by decide) (by decide)).2.2.2.2.2.2.2.2⟩

/-! ## The written container -/

theorem emitted_placed (f : FmtFields) (p : Int) (c : Chunk) :
    (c.placed f p).emitted f = c.emitted f := by
  obtain ⟨id, size, offset, variant⟩ := c
  cases variant <;> rfl

theorem layout_bytes (f : FmtFields) (cs : List Chunk) (p : Int) (d pre post : List Nat)
    (hd : d = pre ++ (cs.flatMap (Chunk.emitted f) ++ post)) (hp : p = (pre.length : Int)) :
    ∀ c ∈ layout f p cs, (d.drop c.offset.toNat).take (c.emitted f).length = c.emitted f := by
  induction cs generalizing p pre with
  | nil => simp [layout]
  | cons c0 cs ih =>
    intro c hc
    simp only [layout, List.mem_cons] at hc
    rcases hc with rfl | hc
    · rw [emitted_placed]
      exact peek_at d pre (c0.emitted f) (cs.flatMap (Chunk.emitted f) ++ post) p _
        (by rw [hd, List.flatMap_cons, List.append_assoc]) hp rfl
    · exact ih (p + ((c0.emitted f).length : Nat)) (pre ++ c0.emitted f)
        (by rw [hd, List.flatMap_cons]; simp only [List.append_assoc])
        (by rw [hp, List.length_append]; push_cast; rfl) c hc

theorem layout_getLast (f : FmtFields) (p : Int) (cs : List Chunk) (c : Chunk) :
    (layout f p (cs ++ [c])).getLast?
      = some (c.placed f (p + ((cs.flatMap (Chunk.emitted f)).length : Nat))) := by
  rw [layout_append]
  simp only [layout, List.getLast?_concat]

theorem flatMap_emitted_layout (f : FmtFields) (p : Int) (cs : List Chunk) :
    (layout f p cs).flatMap (Chunk.emitted f) = cs.flatMap (Chunk.emitted f) := by
  induction cs generalizing p with
  | nil => rfl
  | cons c cs ih => simp only [layout, List.flatMap_cons, emitted_placed, ih]

theorem writeChildren_getLast (hk : Hooks) (sf : SoundFile) :
    (layout (WAVE_fmt.computed sf) 12 (SoundFile.writeChildren hk sf)).getLast?
      = some ⟨DATA, toField 4 (ByteFile.size sf - sf.audioOffset),
          ((waveImage hk sf).length : Nat) - 8, .data⟩ := by
  simp only [SoundFile.writeChildren, layout_getLast, Chunk.placed, waveImage_length,
    Option.some.injEq, Chunk.mk.injEq, true_and, and_true]
  simp only [List.flatMap_append, List.length_append, List.flatMap_cons, List.flatMap_nil,
    List.append_nil, Chunk.emitted, leBytes_length]
  push_cast
  ring

theorem leBytes_RIFF : leBytes 4 RIFF = [82, 73, 70, 70] := by decide

theorem leBytes_WAVE : leBytes 4 WAVE = [87, 65, 86, 69] := by decide

/-- C9. `write_file` for the `WAVE` kind succeeds; the stream then holds the tag
`RIFF` at bytes 0 to 3 and the format `WAVE` at bytes 8 to 11; the header's
children are one format chunk first (tag `fmt `, at byte 12), then the
chunks of `add_custom_chunks` in the order supplied, then one data chunk last
(tag `data`); each child's bytes stand in the stream at the child's offset,
the stream is the concatenation of the header fields and the children's
bytes in sequence order, and each child's offset is strictly greater than
that of every child before it. -/
theorem write_file_layout (hk : Hooks) (sf : SoundFile) (ht : sf.info.type = .WAVE) :
    ∃ h sf1, SoundFile.write_file hk sf = .ok h sf1 ∧
      sf1.data.take 4 = [82, 73, 70, 70] ∧
      (sf1.data.drop 8).take 4 = [87, 65, 86, 69] ∧
      (h.id = RIFF ∧ h.format = WAVE) ∧
      h.chunks = layout (WAVE_fmt.computed sf) 12
        ([⟨FMT, 0, 0, .fmt FmtFields.fresh⟩] ++ hk.custom_chunks ++
          [⟨DATA, toField 4 (ByteFile.size sf - sf.audioOffset), 0, .data⟩]) ∧
      h.chunks.map Chunk.id = [FMT] ++ hk.custom_chunks.map Chunk.id ++ [DATA] ∧
      h.chunks.head? = some ⟨FMT, 0, 12, .fmt (WAVE_fmt.computed sf)⟩ ∧
      h.chunks.getLast? = some ⟨DATA, toField 4 (ByteFile.size sf - sf.audioOffset),
        sf1.audioOffset - 8, .data⟩ ∧
      sf1.data = leBytes 4 h.id ++ (leBytes 4 h.size ++ (leBytes 4 h.format ++
        (h.chunks.flatMap (Chunk.emitted (WAVE_fmt.computed sf)) ++
          sf.data.drop (waveImage hk sf).length))) ∧
      (∀ c ∈ h.chunks, (sf1.data.drop c.offset.toNat).take
          (c.emitted (WAVE_fmt.computed sf)).length = c.emitted (WAVE_fmt.computed sf)) ∧
      List.Pairwise (fun a b : Chunk => a.offset < b.offset) h.chunks := by
  refine ⟨_, _, write_file_wave hk sf ht, ?_, ?_, ⟨rfl, rfl⟩, rfl, ?_, ?_, ?_, ?_, ?_, ?_⟩
  · simp only [waveImage, leBytes_RIFF]
    rfl
  · simp only [waveImage, leBytes_RIFF, leBytes_WAVE]
    have : leBytes 4 0 = [0, 0, 0, 0] := by decide
    rw [this]
    rfl
  · simp only [layout_map_id, SoundFile.writeChildren, List.map_append, List.map_cons,
      List.map_nil]
  · simp only [SoundFile.writeChildren, List.cons_append, List.nil_append, layout, List.head?_cons,
      Chunk.placed]
  · exact writeChildren_getLast hk sf
  · simp only [waveImage, List.append_assoc, flatMap_emitted_layout]
  · exact layout_bytes _ _ 12 _ (leBytes 4 RIFF ++ (leBytes 4 0 ++ leBytes 4 WAVE))
      (sf.data.drop (waveImage hk sf).length)
      (by simp only [waveImage, List.append_assoc]) (by simp [leBytes_length])
  · exact layout_offsets_increasing _ _ _

/-- Witness of C9: the file `demo` written with one custom chunk. -/
theorem write_file_layout_witness :
    demo.info.type = .WAVE ∧
    (∃ h sf1, SoundFile.write_file listHooks demo = .ok h sf1 ∧
      sf1.data.take 4 = [82, 73, 70, 70] ∧
      (sf1.data.drop 8).take 4 = [87, 65, 86, 69] ∧
      (h.id = RIFF ∧ h.format = WAVE) ∧
      h.chunks = layout (WAVE_fmt.computed demo) 12
        ([⟨FMT, 0, 0, .fmt FmtFields.fresh⟩] ++ listHooks.custom_chunks ++
          [⟨DATA, toField 4 (ByteFile.size demo - demo.audioOffset), 0, .data⟩]) ∧
      h.chunks.map Chunk.id = [FMT] ++ listHooks.custom_chunks.map Chunk.id ++ [DATA] ∧
      h.chunks.head? = some ⟨FMT, 0, 12, .fmt (WAVE_fmt.computed demo)⟩ ∧
      h.chunks.getLast? = some ⟨DATA, toField 4 (ByteFile.size demo - demo.audioOffset),
        sf1.audioOffset - 8, .data⟩ ∧
      sf1.data = leBytes 4 h.id ++ (leBytes 4 h.size ++ (leBytes 4 h.format ++
        (h.chunks.flatMap (Chunk.emitted (WAVE_fmt.computed demo)) ++
          demo.data.drop (waveImage listHooks demo).length))) ∧
      (∀ c ∈ h.chunks, (sf1.data.drop c.offset.toNat).take
          (c.emitted (WAVE_fmt.computed demo)).length = c.emitted (WAVE_fmt.computed demo)) ∧
      List.Pairwise (fun a b : Chunk => a.offset < b.offset) h.chunks) :=
  ⟨rfl, write_file_layout listHooks demo rfl⟩

/-! ## The size of the data chunk -/

theorem waveImage_tail (hk : Hooks) (sf : SoundFile) :
    ∃ pre : List Nat, waveImage hk sf
        = pre ++ (leBytes 4 (toField 4 (ByteFile.size sf - sf.audioOffset)) ++ []) ∧
      (pre.length : Int) = ((waveImage hk sf).length : Nat) - 4 := by
  refine ⟨leBytes 4 RIFF ++ (leBytes 4 0 ++ (leBytes 4 WAVE ++
    (([(⟨FMT, 0, 0, .fmt FmtFields.fresh⟩ : Chunk)] ++ hk.custom_chunks).flatMap
      (Chunk.emitted (WAVE_fmt.computed sf)) ++ leBytes 4 DATA))), ?_, ?_⟩
  · simp only [waveImage, SoundFile.writeChildren, List.flatMap_append, List.flatMap_cons,
      List.flatMap_nil, Chunk.emitted, List.append_assoc, List.append_nil]
  · simp only [waveImage, SoundFile.writeChildren, List.flatMap_append, List.flatMap_cons,
      List.flatMap_nil, Chunk.emitted, List.append_assoc, List.append_nil, List.length_append,
      leBytes_length]
    push_cast
    ring

theorem toField_lt (n : Nat) (v : Int) : toField n v < 256 ^ n := by
  unfold toField
  have hpos : (0 : Int) < ((256 ^ n : Nat) : Int) := by positivity
  have h1 := Int.emod_lt_of_pos v hpos
  have h2 := Int.emod_nonneg v (ne_of_gt hpos)
  omega

/-- The size field of the data chunk after `write_file`, in every state of
the `WAVE` kind: the four bytes before the payload offset published hold
`ByteFile::size() - audioOffset` as they were before the call. -/
theorem write_file_data_size_field (hk : Hooks) (sf : SoundFile) (ht : sf.info.type = .WAVE) :
    leValue (((SoundFile.write_file hk sf).state.data.drop
        ((SoundFile.write_file hk sf).state.audioOffset - 4).toNat).take 4)
      = toField 4 (ByteFile.size sf - sf.audioOffset) := by
  rw [write_file_wave hk sf ht]
  obtain ⟨pre, himg, hlen⟩ := waveImage_tail hk sf
  simp only [Res.state]
  rw [peek_at _ pre (leBytes 4 (toField 4 (ByteFile.size sf - sf.audioOffset)))
    (sf.data.drop (waveImage hk sf).length) _ 4
    (by rw [himg]; simp only [List.append_assoc, List.append_nil, List.nil_append])
    hlen.symm (leBytes_length _ _)]
  exact leValue_leBytes_of_lt _ _ (toField_lt _ _)

set_option maxRecDepth 8000 in
/-- C8, as stated, fails: `write_file` on the 76-byte stream of `demo` with a
prior payload offset of 0 publishes the payload offset 44 and leaves 76 in
the size field of the data chunk (bytes 40 to 43), while the stream length
less the payload offset is 32. -/
theorem write_file_data_size_counterexample :
    (SoundFile.write_file noHooks { demo with audioOffset := 0 }).state.audioOffset = 44 ∧
      ByteFile.size (SoundFile.write_file noHooks { demo with audioOffset := 0 }).state = 76 ∧
      leValue (((SoundFile.write_file noHooks { demo with audioOffset := 0 }).state.data.drop
        40).take 4) = 76 ∧
      ((76 : Nat) : Int) ≠
        ByteFile.size (SoundFile.write_file noHooks { demo with audioOffset := 0 }).state
          - (SoundFile.write_file noHooks { demo with audioOffset := 0 }).state.audioOffset := by
  decide

/-- C8, amended. `write_file` for the `WAVE` kind, for every set of custom
chunks, on a stream that already holds the header and the sample bytes and
whose prior payload offset is the one the data chunk publishes during the
write (the length of the header, less than `2 ^ 32` bytes before the end of
the stream): the payload offset published is the data chunk's offset plus 8,
and the size the data chunk holds, which is the size field standing in the
stream in the four bytes before the payload, equals the stream length less
the payload offset. -/
theorem write_file_data_size (hk : Hooks) (sf : SoundFile) (ht : sf.info.type = .WAVE)
    (hoff : sf.audioOffset = ((waveImage hk sf).length : Nat))
    (hlen : (waveImage hk sf).length ≤ sf.data.length)
    (h32 : sf.data.length - (waveImage hk sf).length < 2 ^ 32) :
    ∃ h sf1 d, SoundFile.write_file hk sf = .ok h sf1 ∧
      h.chunks.getLast? = some d ∧ d.variant = .data ∧ d.id = DATA ∧
      sf1.audioOffset = d.offset + 8 ∧
      sf1.audioOffset = sf.audioOffset ∧
      ByteFile.size sf1 = ByteFile.size sf ∧
      (d.size : Int) = ByteFile.size sf1 - sf1.audioOffset ∧
      (leValue ((sf1.data.drop (sf1.audioOffset - 4).toNat).take 4) : Int)
        = ByteFile.size sf1 - sf1.audioOffset := by
  have hw := write_file_wave hk sf ht
  have hfield := write_file_data_size_field hk sf ht
  rw [hw] at hfield
  simp only [Res.state] at hfield
  have hlast := writeChildren_getLast hk sf
  generalize hsf1 : ({ sf with
      data := waveImage hk sf ++ sf.data.drop (waveImage hk sf).length
      pos := ((waveImage hk sf).length : Nat)
      audioOffset := ((waveImage hk sf).length : Nat) } : SoundFile) = sf1 at hw hfield
  have hsf1 := hsf1.symm
  have hsize : ByteFile.size sf1 = ByteFile.size sf := by
    rw [hsf1]
    simp only [ByteFile.size, List.length_append, List.length_drop]
    omega
  have hao : sf1.audioOffset = sf.audioOffset := by rw [hsf1, hoff]
  have hval : (toField 4 (ByteFile.size sf - sf.audioOffset) : Int)
      = ByteFile.size sf - sf.audioOffset := by
    apply toField_of_fits
    · simp only [ByteFile.size, hoff]; omega
    · simp only [ByteFile.size, hoff]
      have : (256 ^ 4 : Nat) = 2 ^ 32 := by norm_num
      omega
  refine ⟨_, sf1, _, hw, hlast, rfl, rfl, by rw [hsf1]; simp, hao, hsize, ?_, ?_⟩
  · simp only [hval, hsize, hao]
  · have hfield1 : leValue ((sf1.data.drop (sf1.audioOffset - 4).toNat).take 4)
        = toField 4 (ByteFile.size sf - sf.audioOffset) := by
      rw [hsf1]
      exact hfield
    rw [hfield1, hval, hsize, hao]

set_option maxRecDepth 8000 in
/-- Witness of C8, amended: the file `listDemo`, whose payload offset 56 is
the length of the header written with the custom chunk of `listHooks`. -/
theorem write_file_data_size_witness :
    (listDemo.info.type = .WAVE ∧
      listDemo.audioOffset = ((waveImage listHooks listDemo).length : Nat) ∧
      (waveImage listHooks listDemo).length ≤ listDemo.data.length ∧
      listDemo.data.length - (waveImage listHooks listDemo).length < 2 ^ 32) ∧
    (∃ h sf1 d, SoundFile.write_file listHooks listDemo = .ok h sf1 ∧
      h.chunks.getLast? = some d ∧ d.variant = .data ∧ d.id = DATA ∧
      sf1.audioOffset = d.offset + 8 ∧
      sf1.audioOffset = listDemo.audioOffset ∧
      ByteFile.size sf1 = ByteFile.size listDemo ∧
      (d.size : Int) = ByteFile.size sf1 - sf1.audioOffset ∧
      (leValue ((sf1.data.drop (sf1.audioOffset - 4).toNat).take 4) : Int)
        = ByteFile.size sf1 - sf1.audioOffset) :=
  ⟨⟨rfl, by decide, by decide, by decide⟩,
    write_file_data_size listHooks listDemo rfl (by decide) (by decide) (by decide)⟩

/-! ## The size of the header -/

/-- The size field of the header after `write_file`, in every state of the
`WAVE` kind: bytes 4 to 7 of the stream are zero. -/
theorem write_file_header_size_field (hk : Hooks) (sf : SoundFile) (ht : sf.info.type = .WAVE) :
    ((SoundFile.write_file hk sf).state.data.drop 4).take 4 = [0, 0, 0, 0] := by
  rw [write_file_wave hk sf ht]
  simp only [Res.state, waveImage, leBytes_RIFF]
  have : leBytes 4 0 = [0, 0, 0, 0] := by decide
  rw [this]
  rfl

set_option maxRecDepth 8000 in
/-- C10 at the file `demo`: after `write_file` the stream has 76 bytes and the
size field of the header, bytes 4 to 7, holds 0, not `76 - 8 = 68`. -/
theorem write_file_header_size_demo :
    (SoundFile.write_file noHooks demo).err = none ∧
      ByteFile.size (SoundFile.write_file noHooks demo).state = 76 ∧
      leValue (((SoundFile.write_file noHooks demo).state.data.drop 4).take 4) = 0 ∧
      ((0 : Nat) : Int) ≠ ByteFile.size (SoundFile.write_file noHooks demo).state - 8 := by
  decide

/-! ## Writing, then reading -/

/-- Reading a header whose twelve bytes stand at the cursor and whose size
is too small to hold a child. -/
theorem Header_read_childless (s : SoundFile) (a b c : Nat) (pre rest : List Nat)
    (ha : a < 256 ^ 4) (hb : b < 4) (hc : c < 256 ^ 4)
    (hp : s.pos = pre.length)
    (hd : s.data = pre ++ (leBytes 4 a ++ (leBytes 4 b ++ (leBytes 4 c ++ rest)))) :
    Header.read Header.fresh s = .ok ⟨a, b, s.pos, c, []⟩ { s with pos := s.pos + 12 } := by
  have v1 := peek_at s.data pre (leBytes 4 a) _ s.pos 4 hd hp (leBytes_length _ _)
  have v2 := peek_at s.data (pre ++ leBytes 4 a) (leBytes 4 b) _ (s.pos + (4 : Nat)) 4
    (by rw [hd]; simp only [List.append_assoc]; rfl)
    (by simp [hp, leBytes_length]) (leBytes_length _ _)
  have v3 := peek_at s.data (pre ++ leBytes 4 a ++ leBytes 4 b) (leBytes 4 c) rest
    (s.pos + (4 : Nat) + (4 : Nat)) 4
    (by rw [hd]; simp only [List.append_assoc])
    (by simp [hp, leBytes_length]; try omega) (leBytes_length _ _)
  have hb' : b < 256 ^ 4 := by omega
  have hfuel : (s.pos + 8 + (b : Int) - (s.pos + 12)).toNat = 0 := by omega
  have hpos : s.pos + (4 : Nat) + (4 : Nat) + (4 : Nat) = s.pos + 12 := by push_cast; ring
  simp only [Header.read, Header.read_fields, ByteFile.read_bytes, ByteFile.position,
    Header.fresh, v1, v2, v3, leValue_leBytes_of_lt _ _ ha, leValue_leBytes_of_lt _ _ hb',
    leValue_leBytes_of_lt _ _ hc, ByteFile.for_chunks_in_range, hfuel, scanChunks,
    List.append_nil, hpos]

theorem dispatch_riff_wave (hk : Hooks) (h : Header) (sf : SoundFile)
    (h1 : h.id = RIFF) (h2 : h.format = WAVE) :
    SoundFile.dispatch hk h sf = .ok () { sf with info := { sf.info with type := .WAVE } } := by
  simp [SoundFile.dispatch, h1, h2]

theorem readBody_childless (hk : Hooks) (h : Header) (sf : SoundFile)
    (ht : sf.info.type = .WAVE) (hc : h.chunks = []) :
    SoundFile.readBody hk h sf = .ok h (SoundFile.seek sf 0).1 := by
  obtain ⟨id, size, offset, format, chunks⟩ := h
  simp only at hc
  subst hc
  simp only [SoundFile.readBody, ht, SoundFile.promoteAll]

/-- `read_file` when the header read is a `RIFF` header of format `WAVE`
without children. -/
theorem read_file_childless (hk : Hooks) (s s1 : SoundFile) (h : Header)
    (hr : Header.read Header.fresh { s with pos := 0 } = .ok h s1)
    (h1 : h.id = RIFF) (h2 : h.format = WAVE) (hc : h.chunks = []) :
    SoundFile.read_file hk s =
      .ok h (SoundFile.seek { s1 with info := { s1.info with type := .WAVE } } 0).1 := by
  rw [SoundFile.read_file, ByteFile.seek, hr]
  simp only
  rw [dispatch_riff_wave hk h s1 h1 h2]
  simp only
  exact readBody_childless hk h _ rfl hc

/-- `read_file` on the state `write_file` leaves for the `WAVE` kind: the header
is read back with the size 0 it was written with, so no child is scanned;
the kind stays `WAVE` and the final `seek(0)` puts the stream at the payload
offset. -/
theorem read_file_after_write (hk : Hooks) (sf : SoundFile) (ht : sf.info.type = .WAVE) :
    SoundFile.read_file hk (SoundFile.write_file hk sf).state =
      .ok ⟨RIFF, 0, 0, WAVE, []⟩
        { (SoundFile.write_file hk sf).state with
          pos := (SoundFile.write_file hk sf).state.audioOffset
            + 0 * (SoundFile.write_file hk sf).state.sample_size } := by
  rw [write_file_wave hk sf ht]
  simp only [Res.state]
  have hR : RIFF < 256 ^ 4 := by decide
  have hW : WAVE < 256 ^ 4 := by decide
  have hh := Header_read_childless
    { sf with
      data := waveImage hk sf ++ sf.data.drop (waveImage hk sf).length
      pos := 0
      audioOffset := ((waveImage hk sf).length : Nat) }
    RIFF 0 WAVE [] _ hR (by omega) hW rfl
    (by simp only [waveImage, List.append_assoc, List.nil_append]; rfl)
  have hinfo : (⟨InfoType.WAVE, sf.info.channels, sf.info.samplerate⟩ : Info) = sf.info := by
    rw [← ht]
  rw [read_file_childless hk
    { sf with
      data := waveImage hk sf ++ sf.data.drop (waveImage hk sf).length
      pos := ((waveImage hk sf).length : Nat)
      audioOffset := ((waveImage hk sf).length : Nat) } _ _ hh rfl rfl rfl]
  simp only [SoundFile.seek, ByteFile.seek, hinfo]

/-! ## Reading back what was written -/

/-- C18. In a state with a positive sample size and a stream at least as long
as the payload offset, `length()` is the floor of
`(ByteFile::size() - audioOffset) / sample_size`: it is not negative,
`length() * sample_size ≤ size - audioOffset < (length() + 1) * sample_size`,
and every index `i` with `0 ≤ i < length()` addresses a whole sample lying
inside the stream, `audioOffset + (i + 1) * sample_size ≤ size`. -/
theorem SoundFile_length_floor (sf : SoundFile)
    (hs : 0 < sf.sample_size) (hle : sf.audioOffset ≤ ByteFile.size sf) :
    0 ≤ SoundFile.length sf ∧
      SoundFile.length sf * sf.sample_size ≤ ByteFile.size sf - sf.audioOffset ∧
      ByteFile.size sf - sf.audioOffset < (SoundFile.length sf + 1) * sf.sample_size ∧
      ∀ i : Int, 0 ≤ i → i < SoundFile.length sf →
        sf.audioOffset + (i + 1) * sf.sample_size ≤ ByteFile.size sf := by
  have hx : 0 ≤ ByteFile.size sf - sf.audioOffset := by omega
  have h1 := tdiv_mul_le_of_nonneg _ _ hx hs
  have h2 := Int.lt_tdiv_add_one_mul_self (ByteFile.size sf - sf.audioOffset) hs
  have h0 : 0 ≤ Int.tdiv (ByteFile.size sf - sf.audioOffset) sf.sample_size :=
    Int.tdiv_nonneg hx (by omega)
  refine ⟨h0, h1, h2, ?_⟩
  intro i hi hlt
  have h3 : (i + 1) * sf.sample_size
      ≤ Int.tdiv (ByteFile.size sf - sf.audioOffset) sf.sample_size * sf.sample_size :=
    Int.mul_le_mul_of_nonneg_right (by unfold SoundFile.length at hlt; omega) (by omega)
  omega

/-- Witness of C18: the file `demo`, 76 bytes with the payload at byte 44 and
four-byte samples. -/
theorem SoundFile_length_floor_witness :
    (0 < demo.sample_size ∧ demo.audioOffset ≤ ByteFile.size demo) ∧
    (0 ≤ SoundFile.length demo ∧
      SoundFile.length demo * demo.sample_size ≤ ByteFile.size demo - demo.audioOffset ∧
      ByteFile.size demo - demo.audioOffset < (SoundFile.length demo + 1) * demo.sample_size ∧
      ∀ i : Int, 0 ≤ i → i < SoundFile.length demo →
        demo.audioOffset + (i + 1) * demo.sample_size ≤ ByteFile.size demo) :=
  ⟨⟨by decide, by decide⟩, SoundFile_length_floor demo (by decide) (by decide)⟩

/-! ## The cursor after reading -/

theorem seek_zero_state (sf : SoundFile) :
    (SoundFile.seek sf 0).1 = { sf with pos := sf.audioOffset } := by
  simp [SoundFile.seek, ByteFile.seek]

theorem readBody_ok_pos (hk : Hooks) (h : Header) (sf : SoundFile)
    (hok : (SoundFile.readBody hk h sf).err = none) :
    (SoundFile.readBody hk h sf).state.pos = (SoundFile.readBody hk h sf).state.audioOffset := by
  unfold SoundFile.readBody at hok ⊢
  cases hty : sf.info.type with
  | WAVE =>
    simp only [hty] at hok ⊢
    cases hp : SoundFile.promoteAll hk h.chunks sf with
    | throw e sf1 => simp [hp, Res.err] at hok
    | ok cs sf1 => simp only [Res.state, seek_zero_state]
  | AIFF => simp [hty, Res.err] at hok
  | Unknown => simp only [Res.state, seek_zero_state]

theorem read_file_ok_pos (hk : Hooks) (sf : SoundFile)
    (hok : (SoundFile.read_file hk sf).err = none) :
    (SoundFile.read_file hk sf).state.pos = (SoundFile.read_file hk sf).state.audioOffset := by
  unfold SoundFile.read_file at hok ⊢
  cases hh : Header.read Header.fresh (ByteFile.seek sf 0).1 with
  | throw e sf1 => simp [hh, Res.err] at hok
  | ok header sf1 =>
    simp only [hh] at hok ⊢
    cases hd : SoundFile.dispatch hk header sf1 with
    | throw e sf2 => simp [hd, Res.err] at hok
    | ok u sf2 =>
      simp only [hd] at hok ⊢
      exact readBody_ok_pos hk header sf2 hok

set_option maxRecDepth 8000 in
/-- C13, as stated, fails: `read_file` on the well-formed WAVE stream of
`wavDemo` succeeds, the header read is `RIFF` with format `WAVE`, and the byte
stream is then at position 44, the payload offset, not at 0. -/
theorem read_file_position_counterexample :
    (SoundFile.read_file noHooks wavDemo).err = none ∧
      ((SoundFile.read_file noHooks wavDemo).val.map Header.id = some RIFF ∧
        (SoundFile.read_file noHooks wavDemo).val.map Header.format = some WAVE) ∧
      ByteFile.position (SoundFile.read_file noHooks wavDemo).state = 44 ∧
      ByteFile.position (SoundFile.read_file noHooks wavDemo).state ≠ 0 := by
  decide

/-- C13, amended. After every successful `read_file`, of a `WAVE` container
in particular, the byte stream is at the payload offset, the position of
sample 0: a following `position()` returns 0 and does not move the stream. -/
theorem read_file_ends_at_sample_zero (hk : Hooks) (sf : SoundFile)
    (hok : (SoundFile.read_file hk sf).err = none) :
    ByteFile.position (SoundFile.read_file hk sf).state
        = (SoundFile.read_file hk sf).state.audioOffset ∧
      SoundFile.position (SoundFile.read_file hk sf).state
        = ((SoundFile.read_file hk sf).state, 0) := by
  have hp := read_file_ok_pos hk sf hok
  refine ⟨hp, ?_⟩
  simp only [SoundFile.position, ByteFile.position, hp, sub_self, Int.zero_tdiv,
    lt_self_iff_false, if_false]

set_option maxRecDepth 8000 in
/-- Witness of C13, amended: the WAVE stream of `wavDemo`. -/
theorem read_file_ends_at_sample_zero_witness :
    (SoundFile.read_file noHooks wavDemo).err = none ∧
    (ByteFile.position (SoundFile.read_file noHooks wavDemo).state
        = (SoundFile.read_file noHooks wavDemo).state.audioOffset ∧
      SoundFile.position (SoundFile.read_file noHooks wavDemo).state
        = ((SoundFile.read_file noHooks wavDemo).state, 0)) :=
  ⟨by decide, read_file_ends_at_sample_zero noHooks wavDemo (by decide)⟩

/-! ## The width of the format payload -/

theorem fmtPayload_length (f : FmtFields) : (fmtPayload f).length = 16 := by
  simp [fmtPayload, leBytes_length]

theorem WAVE_fmt_read_fields_pos (sf : SoundFile) :
    (WAVE_fmt.read_fields sf).state.pos = sf.pos + 16 := by
  unfold WAVE_fmt.read_fields
  simp only [ByteFile.read_bytes]
  split_ifs <;> simp only [Res.state] <;> push_cast <;> ring

theorem WAVE_fmt_write_fields_pos (old : FmtFields) (sf : SoundFile) :
    (WAVE_fmt.write_fields old sf).1.pos = sf.pos + 16 := by
  simp only [WAVE_fmt.write_fields, ByteFile.write_bytes]
  push_cast
  ring

set_option maxRecDepth 8000 in
/-- C14, as stated, fails: on the file `demo` `WAVE_fmt::write_fields` advances
the cursor by 16 bytes, and on the stream `fmtDemo` `WAVE_fmt::read_fields`
consumes 16 bytes; neither is 20. -/
theorem WAVE_fmt_payload_width_counterexample :
    ((WAVE_fmt.write_fields FmtFields.fresh demo).1.pos = demo.pos + 16 ∧
      (WAVE_fmt.write_fields FmtFields.fresh demo).1.pos ≠ demo.pos + 20) ∧
    ((WAVE_fmt.read_fields fmtDemo).err = none ∧
      (WAVE_fmt.read_fields fmtDemo).state.pos = fmtDemo.pos + 16 ∧
      (WAVE_fmt.read_fields fmtDemo).state.pos ≠ fmtDemo.pos + 20) := by
  decide

/-- C14, amended. The payload of the format chunk is 16 bytes, the six
fields `audioFormat`:2, `numChannels`:2, `sampleRate`:4, `byteRate`:4,
`blockAlign`:2, `bitsPerSample`:2: `WAVE_fmt::write_fields` advances the
cursor by exactly 16 bytes, `WAVE_fmt::read_fields` consumes exactly 16
bytes whether it accepts or throws, and reading a format chunk whose tag
stands at byte `sf.pos` reads them starting at `sf.pos + 8` and ends at
`sf.pos + 8 + 16`. -/
theorem WAVE_fmt_payload_width (old f g : FmtFields) (id size : Nat) (offset : Int)
    (sf : SoundFile) :
    (fmtPayload f).length = 2 + 2 + 4 + 4 + 2 + 2 ∧
      (WAVE_fmt.write_fields old sf).1.pos = sf.pos + 16 ∧
      (WAVE_fmt.read_fields sf).state.pos = sf.pos + 16 ∧
      (Chunk.read ⟨id, size, offset, .fmt g⟩ sf).state
        = (WAVE_fmt.read_fields { sf with pos := sf.pos + 8 }).state ∧
      (Chunk.read ⟨id, size, offset, .fmt g⟩ sf).state.pos = sf.pos + 8 + 16 := by
  have hread : (Chunk.read ⟨id, size, offset, .fmt g⟩ sf).state
      = (WAVE_fmt.read_fields { sf with pos := sf.pos + 8 }).state := by
    have hpos : sf.pos + ((4 : Nat) : Int) + ((4 : Nat) : Int) = sf.pos + 8 := by
      push_cast; ring
    simp only [Chunk.read, ByteFile.read_bytes, hpos]
    cases WAVE_fmt.read_fields { sf with pos := sf.pos + 8 } <;> rfl
  refine ⟨fmtPayload_length f, WAVE_fmt_write_fields_pos old sf, WAVE_fmt_read_fields_pos sf,
    hread, ?_⟩
  rw [hread, WAVE_fmt_read_fields_pos]

/-! ## The sample width -/

theorem Chunk_read_generic_eq (sf : SoundFile) :
    Chunk.read ⟨0, 0, 0, .generic⟩ sf
      = .ok (genericAt sf.data sf.pos) { sf with pos := sf.pos + (4 : Nat) + (4 : Nat) } := rfl

theorem sameButCursor_refl (s : SoundFile) : SameButCursor s s := ⟨rfl, rfl, rfl, rfl⟩

theorem sameButCursor_trans {s t u : SoundFile} (h1 : SameButCursor s t)
    (h2 : SameButCursor t u) : SameButCursor s u :=
  ⟨h2.1.trans h1.1, h2.2.1.trans h1.2.1, h2.2.2.1.trans h1.2.2.1, h2.2.2.2.trans h1.2.2.2⟩

theorem sameButCursor_setPos (s : SoundFile) (p : Int) : SameButCursor s { s with pos := p } :=
  ⟨rfl, rfl, rfl, rfl⟩

/-- The scan moves only the cursor, whether it succeeds or throws, and the
children it records are the generic descriptors the stream declares. -/
theorem scanChunks_frame (fuel : Nat) (sf : SoundFile) (p stop : Int) :
    SameButCursor sf (scanChunks fuel sf p stop).state ∧
      ∀ cs sf1, scanChunks fuel sf p stop = .ok cs sf1 →
        ∀ c ∈ cs, c = genericAt sf.data c.offset := by
  induction fuel generalizing sf p with
  | zero =>
    refine ⟨sameButCursor_refl sf, ?_⟩
    intro cs sf1 h
    simp only [scanChunks, Res.ok.injEq] at h
    simp [← h.1]
  | succ n ih =>
    by_cases hp : p < stop
    · simp only [scanChunks, hp, if_true, Chunk_read_generic_eq, ByteFile.seek]
      by_cases hx : (genericAt sf.data p).offset + 8 + (genericAt sf.data p).size > stop
      · simp only [hx, if_true, Res.state]
        exact ⟨sameButCursor_setPos sf _, fun cs sf1 h => by simp at h⟩
      · simp only [hx, if_false]
        obtain ⟨ih1, ih2⟩ := ih
          { sf with pos := (genericAt sf.data p).offset + 8 + (genericAt sf.data p).size }
          ((genericAt sf.data p).offset + 8 + (genericAt sf.data p).size)
        cases hs : scanChunks n
            { sf with pos := (genericAt sf.data p).offset + 8 + (genericAt sf.data p).size }
            ((genericAt sf.data p).offset + 8 + (genericAt sf.data p).size) stop with
        | throw e sf2 =>
          rw [hs] at ih1
          exact ⟨sameButCursor_trans (sameButCursor_setPos sf _) ih1,
            fun cs sf1 h => by simp at h⟩
        | ok cs sf2 =>
          rw [hs] at ih1
          refine ⟨sameButCursor_trans (sameButCursor_setPos sf _) ih1, ?_⟩
          intro cs1 sf1 h
          simp only [Res.ok.injEq] at h
          obtain ⟨rfl, -⟩ := h
          intro c hc
          rcases List.mem_cons.1 hc with rfl | hc
          · rfl
          · exact ih2 cs sf2 hs c hc
    · simp only [scanChunks, hp, if_false, Res.state]
      exact ⟨sameButCursor_refl sf, fun cs sf1 h => by
        simp only [Res.ok.injEq] at h
        simp [← h.1]⟩

/-- Reading the header moves only the cursor, whether it succeeds or throws;
the children of a header read into a fresh `Header` are the generic
descriptors the stream declares. -/
theorem Header_read_frame (sf : SoundFile) :
    SameButCursor sf (Header.read Header.fresh sf).state ∧
      ∀ h sf1, Header.read Header.fresh sf = .ok h sf1 →
        ∀ c ∈ h.chunks, c = genericAt sf.data c.offset := by
  simp only [Header.read, Header.read_fields, ByteFile.read_bytes, ByteFile.position,
    Header.fresh, ByteFile.for_chunks_in_range]
  generalize hfuel : (sf.pos + 8 + ↑(leValue (List.take 4 (List.drop (sf.pos + ↑(4 : Nat)).toNat
    sf.data))) - (sf.pos + 12)).toNat = fuel
  obtain ⟨f1, f2⟩ := scanChunks_frame fuel
    { sf with pos := sf.pos + (4 : Nat) + (4 : Nat) + (4 : Nat) } (sf.pos + 12)
    (sf.pos + 8 + ↑(leValue (List.take 4 (List.drop (sf.pos + ↑(4 : Nat)).toNat sf.data))))
  cases hs : scanChunks fuel
      { sf with pos := sf.pos + (4 : Nat) + (4 : Nat) + (4 : Nat) } (sf.pos + 12)
      (sf.pos + 8 + ↑(leValue (List.take 4 (List.drop (sf.pos + ↑(4 : Nat)).toNat sf.data)))) with
  | throw e sf2 =>
    rw [hs] at f1
    exact ⟨sameButCursor_trans (sameButCursor_setPos sf _) f1, fun h sf1 hh => by simp at hh⟩
  | ok cs sf2 =>
    rw [hs] at f1
    refine ⟨sameButCursor_trans (sameButCursor_setPos sf _) f1, ?_⟩
    intro h sf1 hh
    simp only [Res.ok.injEq] at hh
    obtain ⟨rfl, -⟩ := hh
    simpa using f2 cs sf2 hs

theorem WAVE_fmt_read_fields_frame (sf : SoundFile) :
    (WAVE_fmt.read_fields sf).state.data = sf.data ∧
      (WAVE_fmt.read_fields sf).state.audioOffset = sf.audioOffset ∧
      (WAVE_fmt.read_fields sf).state.sample_size = sf.sample_size ∧
      (WAVE_fmt.read_fields sf).state.info.type = sf.info.type := by
  unfold WAVE_fmt.read_fields
  simp only [ByteFile.read_bytes]
  split_ifs <;> simp [Res.state]

/-- What `Chunk::read` leaves: the chunk has the tag and size the stream
declares at the cursor, the cursor as its offset and the dynamic type it
had; the stream contents, the sample size and the container kind are
unchanged; the payload offset is the chunk's offset plus 8 for a
`WAVE_data` and unchanged otherwise. -/
theorem Chunk_read_ok (c d : Chunk) (s t : SoundFile) (h : Chunk.read c s = .ok d t) :
    (d.id = (genericAt s.data s.pos).id ∧ d.size = (genericAt s.data s.pos).size ∧
        d.offset = s.pos) ∧
      (t.data = s.data ∧ t.sample_size = s.sample_size ∧ t.info.type = s.info.type) ∧
      ((c.variant = .generic → d.variant = .generic) ∧
        (c.variant = .data ↔ d.variant = .data) ∧
        ((∃ f, c.variant = .fmt f) → ∃ g, d.variant = .fmt g)) ∧
      t.audioOffset = (if d.variant = .data then d.offset + 8 else s.audioOffset) := by
  obtain ⟨id, size, offset, variant⟩ := c
  cases variant with
  | generic =>
    simp only [Chunk.read, ByteFile.read_bytes, ByteFile.position, Res.ok.injEq] at h
    obtain ⟨rfl, rfl⟩ := h
    simp [genericAt]
  | custom p =>
    simp only [Chunk.read, ByteFile.read_bytes, ByteFile.position, Res.ok.injEq] at h
    obtain ⟨rfl, rfl⟩ := h
    simp [genericAt]
  | data =>
    simp only [Chunk.read, ByteFile.read_bytes, ByteFile.position, WAVE_data.read_fields,
      Res.ok.injEq] at h
    obtain ⟨rfl, rfl⟩ := h
    simp [genericAt]
  | fmt f =>
    simp only [Chunk.read, ByteFile.read_bytes, ByteFile.position] at h
    have hfr := WAVE_fmt_read_fields_frame
      { s with pos := s.pos + (4 : Nat) + (4 : Nat) }
    cases hr : WAVE_fmt.read_fields { s with pos := s.pos + (4 : Nat) + (4 : Nat) } with
    | throw e u =>
      rw [hr] at h
      simp at h
    | ok g u =>
      rw [hr] at h hfr
      simp only [Res.ok.injEq] at h
      obtain ⟨rfl, rfl⟩ := h
      simp only [Res.state] at hfr
      obtain ⟨h1, h2, h3, h4⟩ := hfr
      simp [genericAt, h1, h2, h3, h4]

/-- The state `Chunk::read` ends in, thrown or not, has the stream contents
it started from. -/
theorem Chunk_read_data (c : Chunk) (s : SoundFile) : (Chunk.read c s).state.data = s.data := by
  obtain ⟨id, size, offset, variant⟩ := c
  cases variant with
  | generic => rfl
  | custom p => rfl
  | data => rfl
  | fmt f =>
    simp only [Chunk.read, ByteFile.read_bytes, ByteFile.position]
    have hfr := (WAVE_fmt_read_fields_frame { s with pos := s.pos + (4 : Nat) + (4 : Nat) }).1
    cases hr : WAVE_fmt.read_fields { s with pos := s.pos + (4 : Nat) + (4 : Nat) } with
    | throw e u =>
      rw [hr] at hfr
      exact hfr
    | ok g u =>
      rw [hr] at hfr
      exact hfr

theorem promoteAll_payload (hk : Hooks) (cs ds : List Chunk) (s t : SoundFile)
    (h : SoundFile.promoteAll hk cs s = .ok ds t) :
    t.audioOffset = payloadOffsetOf s.audioOffset ds ∧ t.data = s.data ∧
      t.info.type = s.info.type := by
  induction cs generalizing s ds with
  | nil =>
    simp only [SoundFile.promoteAll, Res.ok.injEq] at h
    obtain ⟨rfl, rfl⟩ := h
    simp [payloadOffsetOf]
  | cons c cs ih =>
    simp only [SoundFile.promoteAll] at h
    cases hp : SoundFile.promote hk c s with
    | throw e u =>
      rw [hp] at h
      simp at h
    | ok c1 u =>
      rw [hp] at h
      simp only at h
      cases hq : SoundFile.promoteAll hk cs u with
      | throw e v =>
        rw [hq] at h
        simp at h
      | ok cs1 v =>
        rw [hq] at h
        simp only [Res.ok.injEq] at h
        obtain ⟨rfl, rfl⟩ := h
        obtain ⟨-, ⟨hd, -, hty⟩, -, ha⟩ := Chunk_read_ok _ _ _ _ hp
        obtain ⟨i1, i2, i3⟩ := ih cs1 u hq
        simp only [ByteFile.seek] at ha hd hty
        refine ⟨?_, ?_, ?_⟩
        · rw [i1, payloadOffsetOf, ha]
        · rw [i2, hd]
        · rw [i3, hty]

theorem payloadOffsetOf_last (a : Int) (pre post : List Chunk) (d : Chunk)
    (hd : d.variant = .data) (hpost : ∀ c ∈ post, c.variant ≠ .data) :
    payloadOffsetOf a (pre ++ d :: post) = d.offset + 8 := by
  induction pre generalizing a with
  | nil =>
    simp only [List.nil_append, payloadOffsetOf, hd, if_true]
    generalize d.offset + 8 = b
    induction post generalizing b with
    | nil => rfl
    | cons c cs ih =>
      have hc : c.variant ≠ .data := hpost c (List.mem_cons_self _ _)
      simp only [payloadOffsetOf, hc, if_false]
      exact ih (fun x hx => hpost x (List.mem_cons_of_mem _ hx)) b
  | cons c cs ih =>
    rw [List.cons_append, payloadOffsetOf]
    exact ih _

/-- `read_file` when the header read is tagged `RIFF` with format `WAVE`: the
kind is set, the children are promoted in order, and `seek(0)` ends it. -/
theorem read_file_riff_wave (hk : Hooks) (sf sf1 : SoundFile) (h : Header)
    (hh : Header.read Header.fresh (ByteFile.seek sf 0).1 = .ok h sf1)
    (hid : h.id = RIFF ∧ h.format = WAVE) :
    SoundFile.read_file hk sf =
      match SoundFile.promoteAll hk h.chunks
          { sf1 with info := { sf1.info with type := .WAVE } } with
      | .throw e s => .throw e s
      | .ok cs s => .ok { h with chunks := cs } (SoundFile.seek s 0).1 := by
  rw [SoundFile.read_file, hh]
  simp only
  rw [dispatch_riff_wave hk h sf1 hid.1 hid.2]
  simp only [SoundFile.readBody]

/-! ## The data chunk -/

/-- C16. For a data chunk at byte offset `o`, `WAVE_data::read_fields` and
`WAVE_data::write_fields` have the same effect: the payload offset becomes
`o + 8`, the stream contents and the cursor are untouched, and the channel
count, sample rate, container kind and sample size are unchanged. Read or
written through `Chunk::read` and `Chunk::write` at the cursor `sf.pos`, the
chunk gets `sf.pos` as offset and keeps its tag and size, only the 8 bytes
of tag and size are consumed or written, and the payload offset published is
`sf.pos + 8`. After a successful `read_file` of a header tagged `RIFF` with
format `WAVE`, the payload offset is the offset plus 8 of the data child
(the last one, should there be several). -/
theorem WAVE_data_effect (hk : Hooks) (o : Int) (sf sf1 sf2 : SoundFile) (id size : Nat)
    (offset : Int) (h h1 : Header) :
    (WAVE_data.read_fields o sf = WAVE_data.write_fields o sf ∧
        WAVE_data.read_fields o sf = { sf with audioOffset := o + 8 }) ∧
      ((WAVE_data.read_fields o sf).audioOffset = o + 8 ∧
        (WAVE_data.read_fields o sf).data = sf.data ∧
        (WAVE_data.read_fields o sf).pos = sf.pos ∧
        (WAVE_data.read_fields o sf).info = sf.info ∧
        (WAVE_data.read_fields o sf).sample_size = sf.sample_size) ∧
      Chunk.read ⟨id, size, offset, .data⟩ sf =
        .ok ⟨(genericAt sf.data sf.pos).id, (genericAt sf.data sf.pos).size, sf.pos, .data⟩
          { sf with pos := sf.pos + 8, audioOffset := sf.pos + 8 } ∧
      ((Chunk.write ⟨id, size, offset, .data⟩ sf).2 = ⟨id, size, sf.pos, .data⟩ ∧
        (Chunk.write ⟨id, size, offset, .data⟩ sf).1 =
          { ByteFile.write_bytes 4 size (ByteFile.write_bytes 4 id sf) with
            audioOffset := sf.pos + 8 } ∧
        (Chunk.write ⟨id, size, offset, .data⟩ sf).1.pos = sf.pos + 8) ∧
      (Header.read Header.fresh (ByteFile.seek sf 0).1 = .ok h sf1 →
        h.id = RIFF ∧ h.format = WAVE →
        SoundFile.read_file hk sf = .ok h1 sf2 →
        ∀ (pre post : List Chunk) (d : Chunk), h1.chunks = pre ++ d :: post →
          d.variant = .data → (∀ c ∈ post, c.variant ≠ .data) →
          sf2.audioOffset = d.offset + 8) := by
  have hpos : sf.pos + ((4 : Nat) : Int) + ((4 : Nat) : Int) = sf.pos + 8 := by push_cast; ring
  refine ⟨⟨rfl, rfl⟩, ⟨rfl, rfl, rfl, rfl, rfl⟩, ?_, ⟨rfl, rfl, ?_⟩, ?_⟩
  · simp only [Chunk.read, ByteFile.read_bytes, ByteFile.position, WAVE_data.read_fields,
      genericAt, hpos]
  · simp only [Chunk.write, ByteFile.write_bytes, WAVE_data.write_fields, hpos]
  · intro hh hid hr pre post d hch hd hpost
    rw [read_file_riff_wave hk sf sf1 h hh hid] at hr
    cases hp : SoundFile.promoteAll hk h.chunks
        { sf1 with info := { sf1.info with type := .WAVE } } with
    | throw e s =>
      rw [hp] at hr
      simp at hr
    | ok cs s =>
      rw [hp] at hr
      simp only [Res.ok.injEq] at hr
      obtain ⟨rfl, rfl⟩ := hr
      obtain ⟨ha, -, -⟩ := promoteAll_payload hk _ _ _ _ hp
      simp only at hch
      rw [seek_zero_state]
      simp only
      rw [ha, hch]
      exact payloadOffsetOf_last _ pre post d hd hpost

set_option maxRecDepth 8000 in
/-- Witness of C16: `read_file` on the WAVE stream of `wavDemo`, whose data
child stands at byte 36, leaves the payload offset 44. -/
theorem WAVE_data_effect_witness :
    (Header.read Header.fresh (ByteFile.seek wavDemo 0).1
        = .ok ⟨RIFF, 44, 0, WAVE, [⟨FMT, 16, 12, .generic⟩, ⟨DATA, 8, 36, .generic⟩]⟩
            { wavDemo with pos := 52 } ∧
      (RIFF = RIFF ∧ WAVE = WAVE) ∧
      SoundFile.read_file noHooks wavDemo
        = .ok ⟨RIFF, 44, 0, WAVE,
            [⟨FMT, 16, 12, .fmt ⟨3, 2, 44100, 352800, 8, 32⟩⟩, ⟨DATA, 8, 36, .data⟩]⟩
            ⟨wavBytes, 44, ⟨.WAVE, 2, 44100⟩, 44, 4⟩) ∧
    (⟨wavBytes, 44, ⟨.WAVE, 2, 44100⟩, 44, 4⟩ : SoundFile).audioOffset = 36 + 8 :=
  ⟨⟨by decide, ⟨rfl, rfl⟩, by decide⟩,
    (WAVE_data_effect noHooks 36 wavDemo { wavDemo with pos := 52 }
      ⟨wavBytes, 44, ⟨.WAVE, 2, 44100⟩, 44, 4⟩ DATA 8 36
      ⟨RIFF, 44, 0, WAVE, [⟨FMT, 16, 12, .generic⟩, ⟨DATA, 8, 36, .generic⟩]⟩
      ⟨RIFF, 44, 0, WAVE,
        [⟨FMT, 16, 12, .fmt ⟨3, 2, 44100, 352800, 8, 32⟩⟩, ⟨DATA, 8, 36, .data⟩]⟩).2.2.2.2
      (by decide) ⟨rfl, rfl⟩ (by decide)
      [⟨FMT, 16, 12, .fmt ⟨3, 2, 44100, 352800, 8, 32⟩⟩] [] ⟨DATA, 8, 36, .data⟩ rfl rfl
      (by simp)⟩

/-! ## Promotion -/

theorem promote_promoted (hk : Hooks) (hA : hk.Adopting) (c d : Chunk) (s t : SoundFile)
    (hc : c = genericAt s.data c.offset) (hp : SoundFile.promote hk c s = .ok d t) :
    Promoted hk c d ∧ t.data = s.data := by
  have hFD : FMT ≠ DATA := by decide
  have hgen : c.variant = .generic := by rw [hc]; rfl
  have hcid : c.id = (genericAt s.data c.offset).id := congrArg Chunk.id hc
  have hcsize : c.size = (genericAt s.data c.offset).size := congrArg Chunk.size hc
  generalize hc2 : (if (if c.id = FMT then { c with variant := .fmt FmtFields.fresh } else c).id
      = DATA then
        { (if c.id = FMT then { c with variant := .fmt FmtFields.fresh } else c) with
          variant := .data }
      else (if c.id = FMT then { c with variant := .fmt FmtFields.fresh } else c)) = c2
  have hp2 : Chunk.read (hk.replace_custom_chunk c2)
      (ByteFile.seek s (hk.replace_custom_chunk c2).offset).1 = .ok d t := by
    rw [← hc2]
    exact hp
  have hoff2 : c2.offset = c.offset := by
    rw [← hc2]
    split_ifs <;> rfl
  have hv2 : (c.id = FMT → c2.variant = .fmt FmtFields.fresh) ∧
      (c.id = DATA → c2.variant = .data) ∧ (c.id ≠ FMT → c.id ≠ DATA → c2 = c) := by
    rw [← hc2]
    refine ⟨?_, ?_, ?_⟩
    · intro h
      simp [h, hFD]
    · intro h
      simp [h, hFD.symm]
    · intro h1 h2
      simp [h1, h2]
  obtain ⟨hkoff, hkvar⟩ := hA c2
  obtain ⟨⟨e1, e2, e3⟩, ⟨e4, -, -⟩, ⟨v1, v2, v3⟩, -⟩ := Chunk_read_ok _ _ _ _ hp2
  simp only [ByteFile.seek, hkoff, hoff2] at e1 e2 e3 e4
  refine ⟨⟨?_, ?_, e3, ?_, ?_, ?_⟩, e4⟩
  · rw [e1, ← hcid]
  · rw [e2, ← hcsize]
  · intro h
    have h2 := hv2.1 h
    have h3 := hkvar (by rw [h2]; simp)
    exact v3 ⟨FmtFields.fresh, by rw [h3, h2]⟩
  · intro h
    have h2 := hv2.2.1 h
    have h3 := hkvar (by rw [h2]; simp)
    exact v2.1 (by rw [h3, h2])
  · intro h1 h2 h3
    have h4 := hv2.2.2 h1 h2
    rw [h4, h3] at v1
    exact v1 hgen

theorem promoteAll_promoted (hk : Hooks) (hA : hk.Adopting) (cs ds : List Chunk)
    (s t : SoundFile) (hcs : ∀ c ∈ cs, c = genericAt s.data c.offset)
    (h : SoundFile.promoteAll hk cs s = .ok ds t) :
    List.Forall₂ (Promoted hk) cs ds := by
  induction cs generalizing s ds with
  | nil =>
    simp only [SoundFile.promoteAll, Res.ok.injEq] at h
    obtain ⟨rfl, -⟩ := h
    exact List.Forall₂.nil
  | cons c cs ih =>
    simp only [SoundFile.promoteAll] at h
    cases hp : SoundFile.promote hk c s with
    | throw e u =>
      rw [hp] at h
      simp at h
    | ok c1 u =>
      rw [hp] at h
      simp only at h
      cases hq : SoundFile.promoteAll hk cs u with
      | throw e v =>
        rw [hq] at h
        simp at h
      | ok cs1 v =>
        rw [hq] at h
        simp only [Res.ok.injEq] at h
        obtain ⟨rfl, rfl⟩ := h
        obtain ⟨hpr, hdata⟩ := promote_promoted hk hA c c1 s u
          (hcs c (List.mem_cons_self _ _)) hp
        refine List.Forall₂.cons hpr (ih cs1 u ?_ hq)
        intro x hx
        rw [hdata]
        exact hcs x (List.mem_cons_of_mem _ hx)

theorem promoted_map_eq {α : Type} (hk : Hooks) (f : Chunk → α)
    (hf : ∀ c d, Promoted hk c d → f d = f c) (cs ds : List Chunk)
    (h : List.Forall₂ (Promoted hk) cs ds) : ds.map f = cs.map f := by
  induction h with
  | nil => rfl
  | cons hab _ ih => simp [hf _ _ hab, ih]

/-- C17. Promotion is additive. After a successful `read_file` of a header
tagged `RIFF` with format `WAVE`, with a `replace_custom_chunk` that keeps its
contract, the header holds as many children, in the same order, as the
generic scan found; each child has the tag, size and offset of its generic
descriptor; a child tagged `fmt ` is a `WAVE_fmt`, a child tagged `data` is a
`WAVE_data`, and any other child that `replace_custom_chunk` returns as it was
given is generic. The tag, size, offset and format of the header itself are
unchanged. -/
theorem read_file_promotion_additive (hk : Hooks) (hA : hk.Adopting)
    (sf sf1 sf2 : SoundFile) (h h1 : Header)
    (hh : Header.read Header.fresh (ByteFile.seek sf 0).1 = .ok h sf1)
    (hid : h.id = RIFF ∧ h.format = WAVE)
    (hr : SoundFile.read_file hk sf = .ok h1 sf2) :
    List.Forall₂ (Promoted hk) h.chunks h1.chunks ∧
      h1.chunks.length = h.chunks.length ∧
      h1.chunks.map Chunk.offset = h.chunks.map Chunk.offset ∧
      h1.chunks.map Chunk.id = h.chunks.map Chunk.id ∧
      h1.chunks.map Chunk.size = h.chunks.map Chunk.size ∧
      (h1.id = h.id ∧ h1.size = h.size ∧ h1.offset = h.offset ∧ h1.format = h.format) := by
  obtain ⟨hfr, hgen⟩ := Header_read_frame (ByteFile.seek sf 0).1
  rw [hh] at hfr
  have hgen1 := hgen h sf1 hh
  rw [read_file_riff_wave hk sf sf1 h hh hid] at hr
  cases hp : SoundFile.promoteAll hk h.chunks
      { sf1 with info := { sf1.info with type := .WAVE } } with
  | throw e s =>
    rw [hp] at hr
    simp at hr
  | ok cs s =>
    rw [hp] at hr
    simp only [Res.ok.injEq] at hr
    obtain ⟨rfl, -⟩ := hr
    have hall : List.Forall₂ (Promoted hk) h.chunks cs :=
      promoteAll_promoted hk hA h.chunks cs _ s
        (fun c hc => by
          have := hgen1 c hc
          simp only [Res.state] at hfr
          rw [hfr.1]
          exact this) hp
    exact ⟨hall, hall.length_eq.symm,
      promoted_map_eq hk Chunk.offset (fun _ _ hp => hp.2.2.1) _ _ hall,
      promoted_map_eq hk Chunk.id (fun _ _ hp => hp.1) _ _ hall,
      promoted_map_eq hk Chunk.size (fun _ _ hp => hp.2.1) _ _ hall,
      ⟨rfl, rfl, rfl, rfl⟩⟩

set_option maxRecDepth 8000 in
/-- Witness of C17: the stream of `wavListDemo`, a format chunk, a chunk
tagged `LIST` and a data chunk, read without chunk types of the embedder. -/
theorem read_file_promotion_additive_witness :
    (noHooks.Adopting ∧
      Header.read Header.fresh (ByteFile.seek wavListDemo 0).1
        = .ok wavListScanned { wavListDemo with pos := 64 } ∧
      (wavListScanned.id = RIFF ∧ wavListScanned.format = WAVE) ∧
      SoundFile.read_file noHooks wavListDemo
        = .ok wavListRead ⟨wavListDemo.data, 56, ⟨.WAVE, 2, 44100⟩, 56, 4⟩) ∧
    (List.Forall₂ (Promoted noHooks) wavListScanned.chunks wavListRead.chunks ∧
      wavListRead.chunks.length = wavListScanned.chunks.length ∧
      wavListRead.chunks.map Chunk.offset = wavListScanned.chunks.map Chunk.offset ∧
      wavListRead.chunks.map Chunk.id = wavListScanned.chunks.map Chunk.id ∧
      wavListRead.chunks.map Chunk.size = wavListScanned.chunks.map Chunk.size ∧
      (wavListRead.id = wavListScanned.id ∧ wavListRead.size = wavListScanned.size ∧
        wavListRead.offset = wavListScanned.offset ∧
        wavListRead.format = wavListScanned.format)) :=
  ⟨⟨fun _ => ⟨rfl, fun _ => rfl⟩, by decide, ⟨rfl, rfl⟩, by decide⟩,
    read_file_promotion_additive noHooks (fun _ => ⟨rfl, fun _ => rfl⟩) wavListDemo
      { wavListDemo with pos := 64 } ⟨wavListDemo.data, 56, ⟨.WAVE, 2, 44100⟩, 56, 4⟩
      wavListScanned wavListRead (by decide) ⟨rfl, rfl⟩ (by decide)⟩

/-! ## Failures of reading -/

theorem dispatch_throw (hk : Hooks) (h : Header) (s t : SoundFile) (e : Error)
    (hd : SoundFile.dispatch hk h s = .throw e t) :
    e = Error.UnrecognizedFileType ∧ t = s := by
  unfold SoundFile.dispatch at hd
  split_ifs at hd
  simp only [Res.throw.injEq] at hd
  exact ⟨hd.1.symm, hd.2.symm⟩

theorem readBody_err_kind (hk : Hooks) (h : Header) (sf : SoundFile) :
    Error.IsFormat (SoundFile.readBody hk h sf).err ∨
      (SoundFile.readBody hk h sf).err = some Error.UnsupportedContainerKind := by
  unfold SoundFile.readBody
  cases hty : sf.info.type with
  | WAVE =>
    simp only
    have hp := promoteAll_err hk h.chunks sf
    cases hq : SoundFile.promoteAll hk h.chunks sf with
    | throw e s =>
      rw [hq] at hp
      exact Or.inl hp
    | ok cs s => exact Or.inl (Or.inl rfl)
  | AIFF => exact Or.inr rfl
  | Unknown => exact Or.inl (Or.inl rfl)

/-- A failure of `read_file` before the dispatch has chosen a kind: the state
differs from the one before the call in the cursor only. -/
theorem read_file_early_failure (hk : Hooks) (sf : SoundFile)
    (he : (SoundFile.read_file hk sf).err = some Error.MalformedContainer ∨
      (SoundFile.read_file hk sf).err = some Error.UnrecognizedFileType) :
    SameButCursor sf (SoundFile.read_file hk sf).state := by
  have hfr := (Header_read_frame (ByteFile.seek sf 0).1).1
  unfold SoundFile.read_file at he ⊢
  cases hh : Header.read Header.fresh (ByteFile.seek sf 0).1 with
  | throw e s1 =>
    rw [hh] at hfr
    exact hfr
  | ok h s1 =>
    rw [hh] at hfr
    simp only [hh] at he ⊢
    cases hd : SoundFile.dispatch hk h s1 with
    | throw e s2 =>
      obtain ⟨-, rfl⟩ := dispatch_throw hk h s1 s2 e hd
      exact hfr
    | ok u s2 =>
      simp only [hd] at he
      exfalso
      rcases readBody_err_kind hk h s2 with (h1 | h1 | h1) | h1 <;>
        rcases he with he | he <;> rw [h1] at he <;> simp at he

set_option maxRecDepth 8000 in
/-- C12, as stated, fails: a format chunk with encoding 3 and 16 bits makes
`WAVE_fmt::read_fields` throw the unsupported-bit-depth error with the channel
count and sample rate of the rejected chunk (2 and 44100) already published
over the prior values (1 and 0); `read_file` on the stream of `wav16Demo`
fails the same way; and `read_file` on the stream of `dataFirstDemo`, whose data
chunk precedes a format chunk of encoding 1, throws the unsupported-encoding
error with the payload offset already moved from 0 to 20. -/
theorem read_partial_counterexample :
    ((WAVE_fmt.read_fields fmt16Demo).err = some Error.UnsupportedBitDepth ∧
      (fmt16Demo.info.channels = 1 ∧ fmt16Demo.info.samplerate = 0) ∧
      (WAVE_fmt.read_fields fmt16Demo).state.info.channels = 2 ∧
      (WAVE_fmt.read_fields fmt16Demo).state.info.samplerate = 44100) ∧
    ((SoundFile.read_file noHooks wav16Demo).err = some Error.UnsupportedBitDepth ∧
      (wav16Demo.info.channels = 1 ∧ wav16Demo.info.samplerate = 0) ∧
      (SoundFile.read_file noHooks wav16Demo).state.info.channels = 2 ∧
      (SoundFile.read_file noHooks wav16Demo).state.info.samplerate = 44100) ∧
    ((SoundFile.read_file noHooks dataFirstDemo).err = some Error.UnsupportedEncoding ∧
      dataFirstDemo.audioOffset = 0 ∧
      (SoundFile.read_file noHooks dataFirstDemo).state.audioOffset = 20) := by
  decide

/-- C12, amended. When `WAVE_fmt::read_fields` throws the unsupported-encoding
error, the channel count, sample rate and payload offset are those before
the call; when it accepts the chunk, the channel count and sample rate are
those of the chunk, whose encoding is 3 and bit depth 32; it never changes
the payload offset. When `read_file` fails with the malformed-container or
the unrecognized-file-type error, the channel count, sample rate, container
kind and payload offset are those before the call. -/
theorem read_failure_frame :
    (∀ sf : SoundFile, (WAVE_fmt.read_fields sf).err = some Error.UnsupportedEncoding →
        (WAVE_fmt.read_fields sf).state.info = sf.info ∧
        (WAVE_fmt.read_fields sf).state.audioOffset = sf.audioOffset) ∧
      (∀ (sf t : SoundFile) (f : FmtFields), WAVE_fmt.read_fields sf = .ok f t →
        (t.info.channels = f.numChannels ∧ t.info.samplerate = f.sampleRate) ∧
        (f.audioFormat = 3 ∧ f.bitsPerSample = 32)) ∧
      (∀ sf : SoundFile, (WAVE_fmt.read_fields sf).state.audioOffset = sf.audioOffset) ∧
      (∀ (hk : Hooks) (sf : SoundFile),
        (SoundFile.read_file hk sf).err = some Error.MalformedContainer ∨
          (SoundFile.read_file hk sf).err = some Error.UnrecognizedFileType →
        (SoundFile.read_file hk sf).state.info = sf.info ∧
        (SoundFile.read_file hk sf).state.audioOffset = sf.audioOffset) := by
  refine ⟨?_, ?_, ?_, ?_⟩
  · intro sf
    unfold WAVE_fmt.read_fields
    simp only [ByteFile.read_bytes]
    split_ifs <;> simp [Res.err, Res.state]
  · intro sf t f
    unfold WAVE_fmt.read_fields
    simp only [ByteFile.read_bytes]
    split_ifs with h1 h2
    · simp
    · simp
    · intro h
      simp only [Res.ok.injEq] at h
      obtain ⟨rfl, rfl⟩ := h
      simp only [ne_eq, Decidable.not_not] at h1 h2
      exact ⟨⟨rfl, rfl⟩, h1, h2⟩
  · intro sf
    exact (WAVE_fmt_read_fields_frame sf).2.1
  · intro hk sf he
    obtain ⟨-, h2, h3, -⟩ := read_file_early_failure hk sf he
    exact ⟨h2, h3⟩

/-! ## A header of zeros -/

theorem dispatch_zero (hk : Hooks) (h : Header) (sf : SoundFile) (h0 : h.id = 0) :
    SoundFile.dispatch hk h sf = .ok () (hk.create_file sf) := by
  have hR0 : RIFF ≠ 0 := by decide
  have hF0 : FORM ≠ 0 := by decide
  simp [SoundFile.dispatch, h0, hR0.symm, hF0.symm]

theorem readBody_no_children (hk : Hooks) (h : Header) (sf : SoundFile)
    (ht : sf.info.type ≠ .AIFF) (hc : h.chunks = []) :
    SoundFile.readBody hk h sf = .ok h (SoundFile.seek sf 0).1 := by
  obtain ⟨id, size, offset, format, chunks⟩ := h
  simp only at hc
  subst hc
  unfold SoundFile.readBody
  cases hty : sf.info.type with
  | WAVE => simp only [SoundFile.promoteAll]
  | AIFF => exact absurd hty ht
  | Unknown => rfl

/-- Reading a header whose tag and size fields are zero, from byte 0. -/
theorem Header_read_zero (sf : SoundFile)
    (htag : leValue (sf.data.take 4) = 0) (hsize : leValue ((sf.data.drop 4).take 4) = 0) :
    Header.read Header.fresh { sf with pos := 0 }
      = .ok ⟨0, 0, 0, leValue ((sf.data.drop 8).take 4), []⟩ { sf with pos := 12 } := by
  have h4 : ((0 : Int) + ((4 : Nat) : Int)).toNat = 4 := by decide
  have h8 : ((0 : Int) + ((4 : Nat) : Int) + ((4 : Nat) : Int)).toNat = 8 := by decide
  have h12 : (0 : Int) + ((4 : Nat) : Int) + ((4 : Nat) : Int) + ((4 : Nat) : Int) = 12 := by
    decide
  have hfuel : ((0 : Int) + 8 + ((0 : Nat) : Int) - (0 + 12)).toNat = 0 := by decide
  simp only [Header.read, Header.read_fields, ByteFile.read_bytes, ByteFile.position,
    Header.fresh, ByteFile.for_chunks_in_range, Int.toNat_zero, List.drop_zero, h4, h8, h12,
    htag, hsize, hfuel, scanChunks, List.append_nil]

/-- `read_file` on a stream whose header tag and header size are zero, a
zero-length stream among them, in every prior state: the header is read
without children, `create_file` is called with the cursor at byte 12, and the
`switch` on the kind and the final `seek(0)` run on the state `create_file`
leaves. -/
theorem read_file_zero_header (hk : Hooks) (sf : SoundFile)
    (htag : leValue (sf.data.take 4) = 0) (hsize : leValue ((sf.data.drop 4).take 4) = 0) :
    SoundFile.read_file hk sf
      = SoundFile.readBody hk ⟨0, 0, 0, leValue ((sf.data.drop 8).take 4), []⟩
          (hk.create_file { sf with pos := 12 }) := by
  rw [SoundFile.read_file, ByteFile.seek, Header_read_zero sf htag hsize]
  simp only
  rw [dispatch_zero hk _ _ rfl]

end Otto
